import Mathlib

/-!
# Verification of the Railgun decentralized key-value store

Shallow embedding of the core algorithms of the `railgun` repository
(content-addressed trie node codec, MessagePack value codec, identity
suffix derivation, username-claim resolution, and the `Railgun`
coordinator's `put` / `get` / `merge` admission logic), together with
proofs and refutations of the frozen specification claims.

Conventions used throughout:
* JavaScript byte buffers (`Uint8Array`) are `List Nat` with every
  element `< 256`.
* JavaScript strings that the code only ever treats as opaque keys are
  Lean `String`s; strings that travel through `TextEncoder` /
  `TextDecoder` are represented by their UTF-8 byte lists.
* JavaScript 32-bit integer semantics (`|`, `>>`, `%`, `Math.abs`) are
  made explicit with `Int` arithmetic and two's-complement wrapping.
* Cryptographic primitives that the claims treat as black boxes
  (Ed25519 `sign`/`verify`, AES-GCM encryption, JSON canonicalization)
  are universally quantified function parameters; SHA-256, which the
  claims constrain bit-for-bit, is implemented in full.
-/

set_option maxRecDepth 100000

namespace Railgun

/-! ## SHA-256 (from `@noble/hashes`, behaviourally the FIPS 180-4 function)

`computeSuffix` (src/unnamed/part_006) and `BinaryNode.getHash`
(src/examples/vite.config.js third segment) both apply SHA-256 to byte
buffers, and claim C5 constrains the first four output bytes, so the
hash is embedded concretely. -/

/-- Truncate to a 32-bit word. -/
def w32 (x : Nat) : Nat := x % 4294967296

/-- 32-bit right rotation. -/
def rotr32 (n x : Nat) : Nat := w32 ((x >>> n) ||| (x <<< (32 - n)))

/-- Bitwise complement within 32 bits. -/
def not32 (x : Nat) : Nat := x ^^^ 4294967295

/-- SHA-256 small sigma 0. -/
def smallSigma0 (x : Nat) : Nat := (rotr32 7 x) ^^^ (rotr32 18 x) ^^^ (x >>> 3)

/-- SHA-256 small sigma 1. -/
def smallSigma1 (x : Nat) : Nat := (rotr32 17 x) ^^^ (rotr32 19 x) ^^^ (x >>> 10)

/-- SHA-256 big sigma 0. -/
def bigSigma0 (x : Nat) : Nat := (rotr32 2 x) ^^^ (rotr32 13 x) ^^^ (rotr32 22 x)

/-- SHA-256 big sigma 1. -/
def bigSigma1 (x : Nat) : Nat := (rotr32 6 x) ^^^ (rotr32 11 x) ^^^ (rotr32 25 x)

/-- SHA-256 choice function. -/
def chFn (x y z : Nat) : Nat := (x &&& y) ^^^ (not32 x &&& z)

/-- SHA-256 majority function. -/
def majFn (x y z : Nat) : Nat := (x &&& y) ^^^ (x &&& z) ^^^ (y &&& z)

/-- The 64 SHA-256 round constants (decimal). -/
def shaK : List Nat :=
  [
   1116352408, 1899447441, 3049323471, 3921009573, 961987163, 1508970993,
   2453635748, 2870763221, 3624381080, 310598401, 607225278, 1426881987,
   1925078388, 2162078206, 2614888103, 3248222580, 3835390401, 4022224774,
   264347078, 604807628, 770255983, 1249150122, 1555081692, 1996064986,
   2554220882, 2821834349, 2952996808, 3210313671, 3336571891, 3584528711,
   113926993, 338241895, 666307205, 773529912, 1294757372, 1396182291,
   1695183700, 1986661051, 2177026350, 2456956037, 2730485921, 2820302411,
   3259730800, 3345764771, 3516065817, 3600352804, 4094571909, 275423344,
   430227734, 506948616, 659060556, 883997877, 958139571, 1322822218,
   1537002063, 1747873779, 1955562222, 2024104815, 2227730452, 2361852424,
   2428436474, 2756734187, 3204031479, 3329325298]

/-- Initial SHA-256 hash state (decimal). -/
def shaH0 : List Nat :=
  [
   1779033703, 3144134277, 1013904242, 2773480762,
   1359893119, 2600822924, 528734635, 1541459225]

/-- Extend a 16-word block to the 64-word message schedule. -/
def extendSchedule (ws : List Nat) (steps : Nat) : List Nat :=
  match steps with
  | 0 => ws
  | k + 1 =>
      let i := ws.length
      let nw := w32 (smallSigma1 (ws.getD (i - 2) 0) + ws.getD (i - 7) 0 +
                     smallSigma0 (ws.getD (i - 15) 0) + ws.getD (i - 16) 0)
      extendSchedule (ws ++ [nw]) k

/-- One SHA-256 round on the eight-word working state. -/
def shaRound (st : List Nat) (k w : Nat) : List Nat :=
  match st with
  | [a, b, c, d, e, f, g, h] =>
      let t1 := w32 (h + bigSigma1 e + chFn e f g + k + w)
      let t2 := w32 (bigSigma0 a + majFn a b c)
      [w32 (t1 + t2), a, b, c, w32 (d + t1), e, f, g]
  | other => other

/-- Convert a big-endian list of bytes to 32-bit words (4 bytes each). -/
def bytesToWords : List Nat → List Nat
  | b0 :: b1 :: b2 :: b3 :: rest =>
      (((b0 <<< 8 ||| b1) <<< 8 ||| b2) <<< 8 ||| b3) :: bytesToWords rest
  | _ => []

/-- Serialize a 32-bit word to 4 big-endian bytes. -/
def wordToBytes (w : Nat) : List Nat :=
  [(w >>> 24) % 256, (w >>> 16) % 256, (w >>> 8) % 256, w % 256]

/-- Compress one 64-byte block into the running hash state. -/
def shaCompress (H : List Nat) (block : List Nat) : List Nat :=
  let ws := extendSchedule (bytesToWords block) 48
  let fin := (List.zip shaK ws).foldl (fun st p => shaRound st p.1 p.2) H
  (List.zip H fin).map (fun p => w32 (p.1 + p.2))

/-- Fold the compression function over every 64-byte block.  The fuel
argument is instantiated with the message length, an upper bound on the
number of blocks, so the recursion is structural and kernel-reducible. -/
def shaBlocks : Nat → List Nat → List Nat → List Nat
  | _, H, [] => H
  | 0, H, _ => H
  | fuel + 1, H, l => shaBlocks fuel (shaCompress H (l.take 64)) (l.drop 64)

/-- SHA-256 padding: `0x80`, zero fill, 8-byte big-endian bit length. -/
def shaPad (msg : List Nat) : List Nat :=
  let padLen := (64 - ((msg.length + 9) % 64)) % 64
  let bits := msg.length * 8
  msg ++ [0x80] ++ List.replicate padLen 0 ++
    [(bits >>> 56) % 256, (bits >>> 48) % 256, (bits >>> 40) % 256,
     (bits >>> 32) % 256, (bits >>> 24) % 256, (bits >>> 16) % 256,
     (bits >>> 8) % 256, bits % 256]

/-- SHA-256 of a byte list, producing the 32-byte digest. -/
def sha256 (msg : List Nat) : List Nat :=
  let padded := shaPad msg
  (shaBlocks padded.length shaH0 padded).flatMap wordToBytes

/-! ## JavaScript integer helpers

The MessagePack encoder and `computeSuffix` rely on JavaScript bitwise
operators, which coerce their operands to signed 32-bit integers
(`ToInt32`) before operating.  These helpers make that explicit. -/

/-- JavaScript `ToInt32`: wrap an integer into `[-2^31, 2^31)`. -/
def jsToInt32 (v : Int) : Int := ((v + 2147483648).emod 4294967296) - 2147483648

/-- JavaScript `(v >> k) & 0xff` on an integer `v`: coerce to signed
32-bit, arithmetic right shift (floor division), mask the low byte. -/
def jsByte (v : Int) (k : Nat) : Nat := (((jsToInt32 v).fdiv (2 ^ k)).emod 256).toNat

/-- UTF-16 code units of a JavaScript string (for the ASCII strings the
claims exercise these coincide with the UTF-8 bytes). -/
def asciiBytes (s : String) : List Nat := s.toList.map Char.toNat

/-- JavaScript `s.startsWith(pre)`, computed on the character lists (so
that it evaluates inside the kernel). -/
def jsStartsWith (s pre : String) : Bool := pre.toList.isPrefixOf s.toList

/-! ## MessagePack codec (src/unnamed/part_005, `encode` / `decode`)

Values are modeled by `MVal`; JavaScript strings are represented by
their UTF-8 byte lists (`TextEncoder`/`TextDecoder` are then the
identity at the model boundary), and `Uint8Array` blobs likewise.
IEEE-754 doubles are outside the modeled domain: the encoder answers
`none` where the source would call `encodeFloat64` (integers `≥ 2^32`)
and the decoder answers `none` on tag `0xcb`; no claim depends on the
float path.  Recursion is depth-bounded by a fuel argument (so that it
is structural and kernel-reducible); `msgEncode`/`msgDecode` fix the
fuel at 64, far above the nesting depth of any value in this
development, and `none` from fuel exhaustion models nothing in the
source. -/

inductive MVal where
  | mnil
  | mbool (b : Bool)
  | mint (n : Int)
  | mstr (bytes : List Nat)
  | mbin (bytes : List Nat)
  | marr (items : List MVal)
  | mmap (pairs : List (List Nat × MVal))

/-- Encoding of an integer (the `typeof val === 'number'`,
`Number.isInteger` branch of `encodeValue`).  `none` for `val ≥ 2^32`,
where the source falls through to `encodeFloat64`. -/
def encodeInt (v : Int) : Option (List Nat) :=
  if 0 ≤ v then
    let n := v.toNat
    if n < 128 then some [n]
    else if n < 256 then some [0xcc, n]
    else if n < 65536 then some [0xcd, n >>> 8, n &&& 0xff]
    else if n < 4294967296 then
      some [0xce, (n >>> 24) &&& 0xff, (n >>> 16) &&& 0xff, (n >>> 8) &&& 0xff, n &&& 0xff]
    else none
  else
    if -32 ≤ v then some [jsByte v 0]
    else if -128 ≤ v then some [0xd0, jsByte v 0]
    else if -32768 ≤ v then some [0xd1, jsByte v 8, jsByte v 0]
    else some [0xd2, jsByte v 24, jsByte v 16, jsByte v 8, jsByte v 0]

/-- Header-plus-payload encoding of a string's UTF-8 bytes (the
`typeof val === 'string'` branch, also used for map keys). -/
def encStrBytes (b : List Nat) : List Nat :=
  let len := b.length
  if len < 32 then (0xa0 ||| len) :: b
  else if len < 256 then 0xd9 :: len :: b
  else if len < 65536 then 0xda :: (len >>> 8) :: (len &&& 0xff) :: b
  else 0xdb :: ((len >>> 24) &&& 0xff) :: ((len >>> 16) &&& 0xff) ::
       ((len >>> 8) &&& 0xff) :: (len &&& 0xff) :: b

/-- Header-plus-payload encoding of a `Uint8Array` blob. -/
def encBinBytes (b : List Nat) : List Nat :=
  let len := b.length
  if len < 256 then 0xc4 :: len :: b
  else if len < 65536 then 0xc5 :: (len >>> 8) :: (len &&& 0xff) :: b
  else 0xc6 :: ((len >>> 24) &&& 0xff) :: ((len >>> 16) &&& 0xff) ::
       ((len >>> 8) &&& 0xff) :: (len &&& 0xff) :: b

/-- Array header bytes for a given element count. -/
def arrHeader (len : Nat) : List Nat :=
  if len < 16 then [0x90 ||| len]
  else if len < 65536 then [0xdc, len >>> 8, len &&& 0xff]
  else [0xdd, (len >>> 24) &&& 0xff, (len >>> 16) &&& 0xff, (len >>> 8) &&& 0xff, len &&& 0xff]

/-- Map header bytes for a given pair count. -/
def mapHeader (len : Nat) : List Nat :=
  if len < 16 then [0x80 ||| len]
  else if len < 65536 then [0xde, len >>> 8, len &&& 0xff]
  else [0xdf, (len >>> 24) &&& 0xff, (len >>> 16) &&& 0xff, (len >>> 8) &&& 0xff, len &&& 0xff]

/-- Fuel-indexed model of `encodeValue`. -/
def encodeF : Nat → MVal → Option (List Nat)
  | _, .mnil => some [0xc0]
  | _, .mbool false => some [0xc2]
  | _, .mbool true => some [0xc3]
  | _, .mint v => encodeInt v
  | _, .mstr b => some (encStrBytes b)
  | _, .mbin b => some (encBinBytes b)
  | 0, .marr _ => none
  | fuel + 1, .marr items => do
      let bodies ← items.foldlM (fun acc it => do pure (acc ++ (← encodeF fuel it))) []
      pure (arrHeader items.length ++ bodies)
  | 0, .mmap _ => none
  | fuel + 1, .mmap ps => do
      let bodies ← ps.foldlM
        (fun acc p => do pure (acc ++ encStrBytes p.1 ++ (← encodeF fuel p.2))) []
      pure (mapHeader ps.length ++ bodies)

/-- Read a string payload (`decodeString`): `buffer.slice` clamps at the
end of the buffer, so a short read yields a short string. -/
def decStrPayload (len : Nat) (rest : List Nat) : Option (MVal × List Nat) :=
  some (.mstr (rest.take len), rest.drop len)

/-- Read a binary payload (`decodeBinary`). -/
def decBinPayload (len : Nat) (rest : List Nat) : Option (MVal × List Nat) :=
  some (.mbin (rest.take len), rest.drop len)

/-- Fuel-indexed model of `decodeValue` (with `decodeArray` and
`decodeMap` inlined as loops, so the recursion is structural on the
fuel).  `none` models a thrown `Unknown MessagePack type` error, an
out-of-bounds multi-byte read, or (model artifact) tag `0xcb` / fuel
exhaustion.  The source stores decoded map entries into a plain object,
whose keys are strings; in this model keys must decode to strings
(`none` otherwise, never hit on encoder output). -/
def decodeF : Nat → List Nat → Option (MVal × List Nat)
  | 0, _ => none
  | fuel + 1, buf =>
    let decArr : Nat → List Nat → Option (MVal × List Nat) := fun count start => do
      let (items, rest) ← (List.range count).foldlM
        (fun st _ => do
          let (v, r) ← decodeF fuel st.2
          pure (st.1 ++ [v], r))
        (([] : List MVal), start)
      pure (.marr items, rest)
    let decMap : Nat → List Nat → Option (MVal × List Nat) := fun count start => do
      let (ps, rest) ← (List.range count).foldlM
        (fun st _ => do
          let (k, r) ← decodeF fuel st.2
          let (v, r') ← decodeF fuel r
          match k with
          | .mstr kb => pure (st.1 ++ [(kb, v)], r')
          | _ => none)
        (([] : List (List Nat × MVal)), start)
      pure (.mmap ps, rest)
    match buf with
    | [] => none
    | b :: rest =>
      if b < 0x80 then some (.mint b, rest)
      else if b &&& 0xf0 == 0x80 then decMap (b &&& 0x0f) rest
      else if b &&& 0xf0 == 0x90 then decArr (b &&& 0x0f) rest
      else if b &&& 0xe0 == 0xa0 then decStrPayload (b &&& 0x1f) rest
      else if 0xe0 ≤ b then some (.mint ((b : Int) - 256), rest)
      else
        match b, rest with
        | 0xc0, r => some (.mnil, r)
        | 0xc2, r => some (.mbool false, r)
        | 0xc3, r => some (.mbool true, r)
        | 0xcc, b1 :: r => some (.mint b1, r)
        | 0xcd, b1 :: b2 :: r => some (.mint ((b1 <<< 8) ||| b2), r)
        | 0xce, b1 :: b2 :: b3 :: b4 :: r =>
            some (.mint ((((b1 <<< 24) ||| (b2 <<< 16)) ||| (b3 <<< 8)) ||| b4), r)
        | 0xd0, b1 :: r =>
            some (.mint (if b1 < 128 then (b1 : Int) else (b1 : Int) - 256), r)
        | 0xd1, b1 :: b2 :: r => some (.mint ((b1 <<< 8) ||| b2), r)
        | 0xd2, b1 :: b2 :: b3 :: b4 :: r =>
            let u : Nat := (((b1 <<< 24) ||| (b2 <<< 16)) ||| (b3 <<< 8)) ||| b4
            some (.mint (if u < 2147483648 then (u : Int) else (u : Int) - 4294967296), r)
        | 0xd9, b1 :: r => decStrPayload b1 r
        | 0xda, b1 :: b2 :: r => decStrPayload ((b1 <<< 8) ||| b2) r
        | 0xdb, b1 :: b2 :: b3 :: b4 :: r =>
            decStrPayload ((((b1 <<< 24) ||| (b2 <<< 16)) ||| (b3 <<< 8)) ||| b4) r
        | 0xc4, b1 :: r => decBinPayload b1 r
        | 0xc5, b1 :: b2 :: r => decBinPayload ((b1 <<< 8) ||| b2) r
        | 0xc6, b1 :: b2 :: b3 :: b4 :: r =>
            decBinPayload ((((b1 <<< 24) ||| (b2 <<< 16)) ||| (b3 <<< 8)) ||| b4) r
        | 0xdc, b1 :: b2 :: r => decArr ((b1 <<< 8) ||| b2) r
        | 0xdd, b1 :: b2 :: b3 :: b4 :: r =>
            decArr ((((b1 <<< 24) ||| (b2 <<< 16)) ||| (b3 <<< 8)) ||| b4) r
        | 0xde, b1 :: b2 :: r => decMap ((b1 <<< 8) ||| b2) r
        | 0xdf, b1 :: b2 :: b3 :: b4 :: r =>
            decMap ((((b1 <<< 24) ||| (b2 <<< 16)) ||| (b3 <<< 8)) ||| b4) r
        | _, _ => none

/-- The exported `encode`, at the fixed modeling depth. -/
def msgEncode (v : MVal) : Option (List Nat) := encodeF 64 v

/-- The exported `decode` (which returns the decoded value and ignores
trailing bytes), at the fixed modeling depth. -/
def msgDecode (b : List Nat) : Option MVal := (decodeF 64 b).map (fun p => p.1)

/-! ## Identity suffix (src/unnamed/part_006, `fromHex` / `computeSuffix`) -/

/-- Value of one hexadecimal digit character (by ASCII code). -/
def hexNibble (c : Nat) : Option Nat :=
  if 48 ≤ c ∧ c ≤ 57 then some (c - 48)
  else if 97 ≤ c ∧ c ≤ 102 then some (c - 87)
  else if 65 ≤ c ∧ c ≤ 70 then some (c - 55)
  else none

/-- JavaScript `parseInt(two_chars, 16)` followed by `Uint8Array`
assignment: a fully invalid pair parses to `NaN`, which the typed array
stores as `0`; a valid first digit with an invalid second parses as the
single digit. -/
def parseHexPair (c1 c2 : Nat) : Nat :=
  match hexNibble c1, hexNibble c2 with
  | some v1, some v2 => 16 * v1 + v2
  | some v1, none => v1
  | none, _ => 0

/-- Model of `fromHex` on the string's code units: `none` models the
thrown `Invalid hex string` error on odd length. -/
def fromHexAscii : List Nat → Option (List Nat)
  | [] => some []
  | [_] => none
  | c1 :: c2 :: rest => (fromHexAscii rest).map (fun tl => parseHexPair c1 c2 :: tl)

/-- JavaScript `String.prototype.padStart(n, c)`. -/
def padStart (n : Nat) (c : Char) (s : String) : String :=
  String.mk (List.replicate (n - s.length) c ++ s.data)

/-- The signed 32-bit integer the source builds from the first four
hash bytes: `(h[0] << 24) | (h[1] << 16) | (h[2] << 8) | h[3]`, whose
JavaScript value is the two's-complement reading of the bit pattern. -/
def suffixNum (h : List Nat) : Int :=
  jsToInt32 ((((h.getD 0 0 <<< 24) ||| (h.getD 1 0 <<< 16)) ||| (h.getD 2 0 <<< 8)) ||| h.getD 3 0)

/-- The suffix rendering applied to the hash bytes:
`Math.abs(num % 10**length).toString().padStart(length, '0')` on the
signed `num`, where `%` is JavaScript's truncated remainder. -/
def suffixOfHash (h : List Nat) (length : Nat) : String :=
  padStart length '0' (toString (Int.natAbs ((suffixNum h).tmod (10 ^ length))))

/-- Model of `computeSuffix(pubKeyHex, length)`. -/
def computeSuffix (pubKeyHex : String) (length : Nat) : Option String :=
  (fromHexAscii (asciiBytes pubKeyHex)).map fun input => suffixOfHash (sha256 input) length

/-- The unsigned big-endian value of the first four hash bytes, per the
claim's words. -/
def specUnsigned (h : List Nat) : Nat :=
  h.getD 0 0 * 16777216 + h.getD 1 0 * 65536 + h.getD 2 0 * 256 + h.getD 3 0

/-- The suffix rendering the claim describes, applied to the hash. -/
def specSuffixOfHash (h : List Nat) (n : Nat) : String :=
  padStart n '0' (toString (specUnsigned h % 10 ^ n))

/-- Modeled from the claim's words (spec 4.5): the first 4 bytes of
`SHA-256(pk_bytes)` interpreted as a big-endian unsigned 32-bit
integer, taken modulo `10^n`, zero-padded to `n` digits. -/
def specSuffix (pubKeyHex : String) (n : Nat) : Option String :=
  (fromHexAscii (asciiBytes pubKeyHex)).map fun input => specSuffixOfHash (sha256 input) n

/-! ## Trie node binary codec (`BinaryNode`, third segment of
src/examples/vite.config.js)

A node holds an optional value reference and a child map from
single-code-unit characters to 32-byte digests.  The model represents
the value reference by its `TextEncoder` bytes, a child key by its
UTF-16 code unit, and a digest by its 32 raw bytes (the source stores
digests base-64 encoded and converts at the buffer boundary; the
conversion pair `toBase64`/`fromBase64` is the identity on 32-byte
digests, so the model works with the bytes directly).  The child list
plays the role of the JavaScript object: its keys are pairwise
distinct; `serialize` sorts them, just as `Object.keys(...).sort()`
sorts the single-character keys by code unit. -/

structure BNode where
  value : Option (List Nat)
  children : List (Nat × List Nat)
deriving DecidableEq

/-- Insertion sort of child entries by key code unit, modeling
`Object.keys(this.children).sort()` (single-character string keys sort
by their code unit). -/
def insertChild (e : Nat × List Nat) : List (Nat × List Nat) → List (Nat × List Nat)
  | [] => [e]
  | f :: t => if e.1 ≤ f.1 then e :: f :: t else f :: insertChild e t

/-- Sort a child list by key code unit. -/
def sortChildren : List (Nat × List Nat) → List (Nat × List Nat)
  | [] => []
  | e :: t => insertChild e (sortChildren t)

/-- Model of `BinaryNode.serialize`.  The flags byte packs `has_value`
in bit 0 and the child count in bits 1–7 (escape 127 to a 2-byte
count); then the 2-byte value length and value bytes; then each child
as one key byte — `buffer[offset++] = char.charCodeAt(0)`, which stores
the code unit **mod 256** — followed by the 32 digest bytes. -/
def serializeNode (n : BNode) : List Nat :=
  let childKeys := sortChildren n.children
  let numChildren := childKeys.length
  let isExt := 127 ≤ numChildren
  let flags := (if n.value.isSome then 1 else 0) |||
    ((if isExt then 127 else numChildren) <<< 1)
  let extBytes := if isExt then [(numChildren >>> 8) &&& 0xff, numChildren &&& 0xff] else []
  let valBytes :=
    match n.value with
    | none => []
    | some vb => ((vb.length >>> 8) &&& 0xff) :: (vb.length &&& 0xff) :: vb
  let childBytes := childKeys.flatMap (fun e => (e.1 % 256) :: e.2)
  (flags % 256) :: (extBytes ++ valBytes ++ childBytes)

/-- Read `count` child entries: one key byte, then 32 digest bytes.
`none` models the thrown `truncated children` / `truncated hash`
errors. -/
def readChildren : Nat → List Nat → Option (List (Nat × List Nat) × List Nat)
  | 0, rest => some ([], rest)
  | _ + 1, [] => none
  | count + 1, key :: rest =>
      if rest.length < 32 then none
      else
        (readChildren count (rest.drop 32)).map
          (fun p => ((key, rest.take 32) :: p.1, p.2))

/-- First stage of `BinaryNode.deserialize`: extract the child count
from the flags byte, consuming the 2-byte extended count when the
7-bit field holds the escape value 127. -/
def parseCount (flags : Nat) (rest : List Nat) : Option (Nat × List Nat) :=
  if (flags >>> 1) &&& 0x7f == 127 then
    match rest with
    | b1 :: b2 :: r => some ((b1 <<< 8) ||| b2, r)
    | _ => none
  else some ((flags >>> 1) &&& 0x7f, rest)

/-- Second stage of `BinaryNode.deserialize`: when the flags byte's low
bit is set, read the 2-byte value length and the value bytes. -/
def parseValue (flags : Nat) (input : List Nat) : Option (Option (List Nat) × List Nat) :=
  if flags &&& 0x01 ≠ 0 then
    match input with
    | b1 :: b2 :: r =>
        let len := (b1 <<< 8) ||| b2
        if r.length < len then none
        else some (some (r.take len), r.drop len)
    | _ => none
  else some (none, input)

/-- Model of `BinaryNode.deserialize`.  `none` models a thrown
`Invalid binary node` error; the reconstructed child key is
`String.fromCharCode(byte)`, i.e. the stored byte itself.  Trailing
bytes after the last child are ignored, as in the source. -/
def deserializeNode (buffer : List Nat) : Option BNode :=
  match buffer with
  | [] => none
  | flags :: rest =>
      (parseCount flags rest).bind fun p =>
      (parseValue flags p.2).bind fun q =>
      (readChildren p.1 q.2).map fun c => BNode.mk q.1 c.1

/-- RFC 4648 URL-safe unpadded base-64, from `toBase64`
(src/unnamed/part_006). -/
def b64Char (v : Nat) : Nat :=
  if v < 26 then 65 + v
  else if v < 52 then 97 + (v - 26)
  else if v < 62 then 48 + (v - 52)
  else if v = 62 then 45
  else 95

/-- Encode a byte list to URL-safe base-64 character codes. -/
def toBase64 : List Nat → List Nat
  | b0 :: b1 :: b2 :: rest =>
      let g := ((b0 % 256) <<< 16) ||| ((b1 % 256) <<< 8) ||| (b2 % 256)
      b64Char (g >>> 18) :: b64Char ((g >>> 12) &&& 63) :: b64Char ((g >>> 6) &&& 63) ::
        b64Char (g &&& 63) :: toBase64 rest
  | [b0, b1] =>
      let g := ((b0 % 256) <<< 16) ||| ((b1 % 256) <<< 8)
      [b64Char (g >>> 18), b64Char ((g >>> 12) &&& 63), b64Char ((g >>> 6) &&& 63)]
  | [b0] =>
      let g := (b0 % 256) <<< 16
      [b64Char (g >>> 18), b64Char ((g >>> 12) &&& 63)]
  | [] => []

/-- Model of `BinaryNode.getHash`: SHA-256 of the serialization,
rendered base-64. -/
def nodeHash (n : BNode) : List Nat := toBase64 (sha256 (serializeNode n))

/-! ## Username claims (src/unnamed/part_004, `ClaimManager`) -/

structure UClaim where
  username : String
  pubKey : String
  createdAt : Int
  revoked : Bool
  signature : String
deriving DecidableEq

/-- The `reduce` callback of `resolveWinner`: keep the strictly earlier
claim, the accumulator on ties. -/
def pickEarliest (earliest current : UClaim) : UClaim :=
  if current.createdAt < earliest.createdAt then current else earliest

/-- Model of `ClaimManager.resolveWinner`.  `sigOk c` abstracts
`verify(c.signature, canonicalize({username, pubKey, createdAt,
revoked}), c.pubKey)`; `none` models a thrown verification error, which
the source catches and treats like an invalid signature.  The
`reduce` without an initial accumulator is the fold over the tail. -/
def resolveWinner (sigOk : UClaim → Option Bool) (claims : List UClaim) : Option UClaim :=
  if claims.isEmpty then none
  else
    let activeClaims := claims.filter (fun c => !c.revoked)
    if activeClaims.isEmpty then none
    else
      let validClaims := activeClaims.filter (fun c => sigOk c == some true)
      match validClaims with
      | [] => none
      | h :: t => some (t.foldl pickEarliest h)

/-! ## The Railgun coordinator (src/src/index.js)

`merge` is settled against the trie engine's contract (spec 4.4: `get`
at a path returns the envelope most recently `put` there), so its store
is a path-indexed association list of envelopes; the value-codec
composition that `put`/`get` additionally traverse is modeled
separately below where claims hinge on it.  `normalizeKey`
(Unicode NFKC + lower-casing, applied inside every trie operation) and
the cryptographic primitives are abstract parameters collected in
`Oracle`; every theorem quantifies over them. -/

structure Payload where
  key : String
  value : MVal
  timestamp : Int
  author : String
  isEncrypted : Bool
  space : String

structure Envelope where
  payload : Payload
  signature : String

abbrev Store := List (String × Envelope)

/-- Abstract collaborators of the coordinator.  `verify sig msg author`
models `crypto.verify` (`none` = thrown error); `canonPayload` models
`canonicalize` on an envelope payload; `verifyProofM`/`canonClaim` are
the same two functions at the handle-claim call site, where the
arguments are fields of a decoded value; `sign msg priv` models
`crypto.sign`; `encData v dk` models
`encryptData(JSON.stringify(v), dataKey)` (a hex ciphertext string) and
`decData` the inverse `JSON.parse(decryptData(..))` (`none` = thrown
error). -/
structure Oracle where
  norm : String → String
  verify : String → String → String → Option Bool
  canonPayload : Payload → String
  verifyProofM : MVal → String → MVal → Option Bool
  canonClaim : MVal → MVal → MVal → String
  sign : String → String → String
  encData : MVal → String → String
  decData : MVal → String → Option MVal

/-- Envelope stored at a (already normalized) path. -/
def storedAt (st : Store) (p : String) : Option Envelope :=
  (st.find? (fun q => q.1 == p)).map (fun q => q.2)

/-- Trie-contract `get`: normalize the key, look it up. -/
def storeGet (norm : String → String) (st : Store) (k : String) : Option Envelope :=
  storedAt st (norm k)

/-- Trie-contract `put`: normalize the key, replace or insert. -/
def storePut (norm : String → String) (st : Store) (k : String) (e : Envelope) : Store :=
  if (st.find? (fun q => q.1 == norm k)).isSome then
    st.map (fun q => if q.1 == norm k then (q.1, e) else q)
  else (norm k, e) :: st

/-- Truthiness of a decoded value (JavaScript `if (x)`). -/
def mvTruthy : MVal → Bool
  | .mnil => false
  | .mbool b => b
  | .mint n => !(n == 0)
  | .mstr s => !s.isEmpty
  | .mbin _ => true
  | .marr _ => true
  | .mmap _ => true

/-- Truthiness of a possibly-undefined value. -/
def mTruthy : Option MVal → Bool
  | none => false
  | some v => mvTruthy v

/-- JavaScript property access `x[field]` on a decoded value:
`undefined` (`none`) unless `x` is an object with that key. -/
def mGet (m : MVal) (field : String) : Option MVal :=
  match m with
  | .mmap ps => ((ps.find? (fun p => p.1 == asciiBytes field)).map (fun p => p.2))
  | _ => none

/-- JavaScript `x === s` for a string literal `s` against a
possibly-undefined decoded value. -/
def mIsStr (x : Option MVal) (s : List Nat) : Bool :=
  match x with
  | some (.mstr b) => b == s
  | _ => false

/-- JavaScript `String.prototype.split(sep)` on a byte-list string. -/
def splitOnByte (sep : Nat) : List Nat → List (List Nat)
  | [] => [[]]
  | b :: t =>
      let r := splitOnByte sep t
      if b == sep then [] :: r
      else
        match r with
        | h :: t' => (b :: h) :: t'
        | [] => [[b]]

/-- `computeSuffix` on a hex string given as code units, returning the
digit code units (the byte-level view used when the handle fields come
from a decoded value). -/
def computeSuffixAscii (hexBytes : List Nat) (length : Nat) : Option (List Nat) :=
  (fromHexAscii hexBytes).map fun input => asciiBytes (suffixOfHash (sha256 input) length)

/-- Model of `Railgun.verifyHandleOwnership(handle, pubKey)` where both
arguments are fields of a decoded (hence attacker-controlled) value.
`none` models a thrown error: `split` on a non-string handle throws a
`TypeError`, and `fromHex` throws on a non-string or odd-length public
key; neither is caught by `merge`. -/
def verifyHandleOwnershipM (handle pubKey : MVal) : Option Bool :=
  match handle with
  | .mstr hbytes =>
      let parts := splitOnByte 35 hbytes
      if parts.length < 2 then some false
      else
        let claimedSuffix := parts.getLastD []
        match pubKey with
        | .mstr pkBytes =>
            match computeSuffixAscii pkBytes claimedSuffix.length with
            | some actualSuffix => some (actualSuffix == claimedSuffix)
            | none => none
        | _ => none
  | _ => none

/-- The key a JavaScript `Set` uses for a claim's `signature` when
de-duplicating merged username claims: primitives compare by value,
objects by reference (modeled as never equal, since the two merged
arrays are separately decoded/parsed and share no references). -/
inductive SigKey where
  | threw
  | undefKey
  | nil
  | bool (b : Bool)
  | int (n : Int)
  | str (s : List Nat)
  | objRef

/-- `c.signature` as a `Set` key; accessing a property of `null` throws
(`SigKey.threw`). -/
def sigKeyOf (c : MVal) : SigKey :=
  match c with
  | .mnil => .threw
  | .mmap _ =>
      match mGet c "signature" with
      | none => .undefKey
      | some .mnil => .nil
      | some (.mbool b) => .bool b
      | some (.mint n) => .int n
      | some (.mstr s) => .str s
      | some (.mbin _) => .objRef
      | some (.marr _) => .objRef
      | some (.mmap _) => .objRef
  | _ => .undefKey

/-- `Set.has` for signature keys: value equality on primitives,
reference inequality on objects. -/
def sigKeyMem : SigKey → List SigKey → Bool
  | _, [] => false
  | k, k' :: t =>
      (match k, k' with
       | .undefKey, .undefKey => true
       | .nil, .nil => true
       | .bool a, .bool b => a == b
       | .int a, .int b => a == b
       | .str a, .str b => a == b
       | _, _ => false) || sigKeyMem k t

/-- The de-duplication loop of the username-claims union: keep the
first claim for each signature key.  `none` models the `TypeError`
thrown by `c.signature` when a merged entry is `null`. -/
def dedupeBySig (cs : List MVal) : Option (List MVal) :=
  let rec go : List MVal → List SigKey → Option (List MVal)
    | [], _ => some []
    | c :: t, seen =>
        match sigKeyOf c with
        | .threw => none
        | k =>
            if sigKeyMem k seen then go t seen
            else (go t (k :: seen)).map (fun r => c :: r)
  go cs []

/-- JavaScript spread `[...x]`: arrays spread to their elements,
strings to their one-character strings, `Uint8Array`s to their byte
values; other values are not iterable and the spread throws
(`none`). -/
def spreadList : MVal → Option (List MVal)
  | .marr l => some l
  | .mstr s => some (s.map (fun b => .mstr [b]))
  | .mbin s => some (s.map (fun b => .mint b))
  | _ => none

/-- Outcome of `merge`: a returned boolean, or an uncaught exception. -/
inductive MergeOutcome where
  | ok (admitted : Bool)
  | threw

/-- `MAX_CLAIM_AGE` (one hour in milliseconds). -/
def MAX_CLAIM_AGE : Int := 3600000

/-- The tail of `merge` from the conflict handling on: union for
username-claim paths (de-duplicated by signature, timestamp maxed),
last-write-wins elsewhere, then `trie.put`. -/
def mergeStore (o : Oracle) (st : Store) (env : Envelope) : MergeOutcome × Store :=
  let payload := env.payload
  match storeGet o.norm st payload.key with
  | some existing =>
      if jsStartsWith payload.key "all/claims/username/" then
        match spreadList existing.payload.value, spreadList payload.value with
        | some oldClaims, some newClaims =>
            match dedupeBySig (oldClaims ++ newClaims) with
            | none => (.threw, st)
            | some unique =>
                let payload' := { payload with
                  value := .marr unique,
                  timestamp := max payload.timestamp existing.payload.timestamp }
                (.ok true, storePut o.norm st payload.key { env with payload := payload' })
        | _, _ => (.threw, st)
      else if existing.payload.timestamp ≥ payload.timestamp then (.ok false, st)
      else (.ok true, storePut o.norm st payload.key env)
  | none => (.ok true, storePut o.norm st payload.key env)

/-- Model of `Railgun.merge` (remote admission).  `now` abstracts
`Date.now()` at the replay check. -/
def merge (o : Oracle) (now : Int) (st : Store) (env : Envelope) : MergeOutcome × Store :=
  let payload := env.payload
  match o.verify env.signature (o.canonPayload payload) payload.author with
  | none => (.ok false, st)
  | some false => (.ok false, st)
  | some true =>
    if payload.space == "user" then
      if !(jsStartsWith payload.key ("user/" ++ payload.author ++ "/")) then (.ok false, st)
      else mergeStore o st env
    else if payload.space == "frozen" then
      if (storeGet o.norm st payload.key).isSome then (.ok false, st)
      else if now - payload.timestamp > MAX_CLAIM_AGE then (.ok false, st)
      else if payload.author == "" then (.ok false, st)
      else if jsStartsWith payload.key "frozen/handles/" then
        let handleData := payload.value
        if !(mvTruthy handleData) || !(mTruthy (mGet handleData "pubKey")) ||
            !(mTruthy (mGet handleData "handle")) then (.ok false, st)
        else if !(mIsStr (mGet handleData "pubKey") (asciiBytes payload.author)) then
          (.ok false, st)
        else
          match verifyHandleOwnershipM ((mGet handleData "handle").getD .mnil)
              ((mGet handleData "pubKey").getD .mnil) with
          | none => (.threw, st)
          | some false => (.ok false, st)
          | some true =>
            if !(mTruthy (mGet handleData "proof")) then (.ok false, st)
            else
              match o.verifyProofM ((mGet handleData "proof").getD .mnil)
                  (o.canonClaim ((mGet handleData "handle").getD .mnil)
                    ((mGet handleData "pubKey").getD .mnil)
                    ((mGet handleData "claimedAt").getD .mnil))
                  ((mGet handleData "pubKey").getD .mnil) with
              | none => (.ok false, st)
              | some false => (.ok false, st)
              | some true => mergeStore o st env
      else mergeStore o st env
    else mergeStore o st env

/-- Fold `merge` over a list of incoming envelopes (the state reached
after a peer admits them in order). -/
def mergeList (o : Oracle) (now : Int) (st : Store) (es : List Envelope) : Store :=
  es.foldl (fun s e => (merge o now s e).2) st

/-- An envelope that reaches the conflict-resolution step of `merge`
for the normalized path `p`: its signature verifies, it is not for the
frozen space, the user-space path rule holds for it, and its raw key is
not a username-claims path. -/
def Admissible (o : Oracle) (p : String) (e : Envelope) : Prop :=
  o.norm e.payload.key = p ∧
  jsStartsWith e.payload.key "all/claims/username/" = false ∧
  o.verify e.signature (o.canonPayload e.payload) e.payload.author = some true ∧
  e.payload.space ≠ "frozen" ∧
  (e.payload.space = "user" →
    (jsStartsWith e.payload.key ("user/" ++ e.payload.author ++ "/")) = true)

/-- Every stored user-space envelope names its author in its path
(claim C4's intended invariant). -/
def UserInv (st : Store) : Prop :=
  ∀ q ∈ st, q.2.payload.space = "user" →
    (jsStartsWith q.2.payload.key ("user/" ++ q.2.payload.author ++ "/")) = true

/-! ## `Railgun.put` / `Railgun.get` through the trie and value store

`trie.put(path, envelope)` stores the envelope through
`ValueStore.put` (src/unnamed/part_007): the value is
`msgpack.encode`d into content-addressed storage AND the original
object is cached under its reference key; `trie.get` consults the
cache first and only decodes the stored bytes on a miss
(src/src/core/binary-trie.js).  The envelope object built by `put`
maps to `MVal` with the source's field insertion order. -/

def payloadToM (p : Payload) : MVal :=
  .mmap [(asciiBytes "key", .mstr (asciiBytes p.key)),
         (asciiBytes "value", p.value),
         (asciiBytes "timestamp", .mint p.timestamp),
         (asciiBytes "author", .mstr (asciiBytes p.author)),
         (asciiBytes "isEncrypted", .mbool p.isEncrypted),
         (asciiBytes "space", .mstr (asciiBytes p.space))]

def envelopeToM (e : Envelope) : MVal :=
  .mmap [(asciiBytes "payload", payloadToM e.payload),
         (asciiBytes "signature", .mstr (asciiBytes e.signature))]

/-- JS `Map` lookup on an insertion-ordered association list. -/
def alistFind {κ β : Type} [BEq κ] (m : List (κ × β)) (k : κ) : Option β :=
  (m.find? (fun e => e.1 == k)).map (fun e => e.2)

/-- JS `Map.set`: overwrite in place when the key is present, append at
the end (insertion order) otherwise. -/
def alistSet {κ β : Type} [BEq κ] (m : List (κ × β)) (k : κ) (v : β) : List (κ × β) :=
  if (m.find? (fun e => e.1 == k)).isSome then
    m.map (fun e => if e.1 == k then (e.1, v) else e)
  else m ++ [(k, v)]

/-- The value store's content address (part_007 `put`):
`'v:' + hash(encoded)`, with `hash` = base64 of SHA-256
(src/src/core/crypto.js). -/
def valueRefKey (encoded : List Nat) : List Nat :=
  asciiBytes "v:" ++ toBase64 (sha256 encoded)

/-- `ValueStore.addToCache`: drop any existing entry for the key,
append the new entry at the end, and evict the oldest entry once the
cache exceeds its 500-entry bound. -/
def addToCache (cache : List (List Nat × MVal)) (key : List Nat) (v : MVal) :
    List (List Nat × MVal) :=
  if 500 < ((cache.filter (fun e => !(e.1 == key))) ++ [(key, v)]).length
  then ((cache.filter (fun e => !(e.1 == key))) ++ [(key, v)]).drop 1
  else (cache.filter (fun e => !(e.1 == key))) ++ [(key, v)]

/-- `value === null || value === undefined` (part_007 `put`). -/
def isNilV : MVal → Bool
  | .mnil => true
  | _ => false

/-- The trie-plus-value-store state behind `Railgun.put`/`get`:
`paths` is the binary trie read as a map from normalized path to the
leaf's value reference (`none` models a leaf whose value reference is
`null`), `storage` holds the content-addressed encoded bytes, and
`cache` is the `ValueStore` cache, which holds the ORIGINAL value
objects in insertion order (src/src/core/binary-trie.js,
src/unnamed/part_007). -/
structure TrieState where
  paths : List (String × Option (List Nat))
  storage : List (List Nat × List Nat)
  cache : List (List Nat × MVal)

/-- `ValueStore.put`: a `null` value stores nothing and yields a `null`
reference; otherwise encode, store the bytes under the content address
when absent, and cache the original value under that key.  The outer
`none` models `msgpack.encode` throwing outside the modeled codec
domain. -/
def vstorePut (storage : List (List Nat × List Nat)) (cache : List (List Nat × MVal))
    (value : MVal) :
    Option (Option (List Nat) × List (List Nat × List Nat) × List (List Nat × MVal)) :=
  if isNilV value then some (none, storage, cache)
  else
    match msgEncode value with
    | none => none
    | some encoded =>
        some (some (valueRefKey encoded),
          (if (alistFind storage (valueRefKey encoded)).isSome then storage
           else alistSet storage (valueRefKey encoded) encoded),
          addToCache cache (valueRefKey encoded) value)

/-- `ValueStore.get`: `null` for a `null` reference; the cached
original value on a hit; otherwise decode the stored bytes.  (The read
side's own cache insert only reorders later evictions and is not
tracked.) -/
def vstoreGetVal (storage : List (List Nat × List Nat)) (cache : List (List Nat × MVal))
    (ref : Option (List Nat)) : Option MVal :=
  match ref with
  | none => none
  | some k =>
      match alistFind cache k with
      | some v => some v
      | none =>
          match alistFind storage k with
          | none => none
          | some encoded => msgDecode encoded

/-- `trie.get` (binary-trie.js): walk to the normalized path's leaf and
read its value reference through the value store. -/
def trieGetM (norm : String → String) (ts : TrieState) (k : String) : Option MVal :=
  match alistFind ts.paths (norm k) with
  | none => none
  | some ref => vstoreGetVal ts.storage ts.cache ref

/-- `trie.put` (binary-trie.js): store the value through the value
store and point the normalized path's leaf at the returned
reference. -/
def triePutM (norm : String → String) (ts : TrieState) (k : String) (v : MVal) :
    Option TrieState :=
  match vstorePut ts.storage ts.cache v with
  | none => none
  | some (ref, storage1, cache1) =>
      some { paths := alistSet ts.paths (norm k) ref,
             storage := storage1, cache := cache1 }

/-- Errors surfaced by `put`/`get` to their caller (each names the
`throw new Error(..)` site in src/src/index.js).  `codecOutOfScope` is
a model artifact: the value encodes through the unmodeled float path
(never hit in this development). -/
inductive RgError where
  | notLoggedIn
  | immutable
  | unknownSpace
  | loginRequired
  | lockedWallet
  | decryptFailed
  | identityMissing
  | malformedEnvelope
  | codecOutOfScope
deriving DecidableEq

/-- The coordinator state visible to `put`/`get`: the trie state, the
identity (`identity.publicKey`) and the runtime keys
(`runtime.privateKey` and `runtime.dataKey`, which the source always
sets together). -/
structure RgState where
  store : TrieState
  pubKey : Option String
  runtime : Option (String × String)

/-- Model of `Railgun.put(key, value, { space, volatile })`.  `nowTs`
abstracts `Date.now()`.  Returns the new state (the root-hash return
value and the event/broadcast side effects are outside the store
model). -/
def rgPut (o : Oracle) (nowTs : Int) (st : RgState) (key : String) (value : MVal)
    (space : String) (volatile : Bool) : Except RgError RgState := do
  match st.runtime with
  | none => throw .notLoggedIn
  | some (priv, dk) =>
  match st.pubKey with
  | none => throw .identityMissing
  | some pub =>
  let skv : String × MVal × Bool ←
    if space == "all" then pure ("all/" ++ key, value, false)
    else if space == "frozen" then
      let sk := "frozen/" ++ key
      if mTruthy (trieGetM o.norm st.store sk) then throw .immutable
      else pure (sk, value, false)
    else if space == "user" then
      pure ("user/" ++ pub ++ "/" ++ key, .mstr (asciiBytes (o.encData value dk)), true)
    else throw .unknownSpace
  let storageKey := skv.1
  let payload : Payload :=
    { key := storageKey, value := skv.2.1, timestamp := nowTs, author := pub,
      isEncrypted := skv.2.2, space := space }
  let env : Envelope := { payload := payload, signature := o.sign (o.canonPayload payload) priv }
  if volatile then pure st
  else
    match triePutM o.norm st.store storageKey (envelopeToM env) with
    | none => throw .codecOutOfScope
    | some ts1 => pure { st with store := ts1 }

/-- Model of `Railgun.get(key, { space })` (without a network, so the
`waitForSync` / retry branches are inert).  Returns the value the
caller sees: `none` for an absent path. -/
def rgGet (o : Oracle) (st : RgState) (key : String) (space : String) :
    Except RgError (Option MVal) := do
  let storageKey ←
    if space == "all" then pure ("all/" ++ key)
    else if space == "frozen" then pure ("frozen/" ++ key)
    else if space == "user" then
      match st.pubKey with
      | none => throw .loginRequired
      | some pub => pure ("user/" ++ pub ++ "/" ++ key)
    else pure key
  match trieGetM o.norm st.store storageKey with
  | none => pure none
  | some envM =>
      if !(mvTruthy envM) then pure none
      else
        match mGet envM "payload" with
        | none => throw .malformedEnvelope
        | some payloadM =>
            let val := mGet payloadM "value"
            if mTruthy (mGet payloadM "isEncrypted") && space == "user" then
              match st.runtime with
              | none => throw .lockedWallet
              | some (_, dk) =>
                  match val with
                  | none => throw .decryptFailed
                  | some v =>
                      match o.decData v dk with
                      | none => throw .decryptFailed
                      | some clear => pure (some clear)
            else pure val


/-- The envelope `Railgun.put` constructs for a frozen-space write. -/
def frozenEnvelope (o : Oracle) (nowTs : Int) (pub priv : String) (key : String)
    (value : MVal) : Envelope :=
  let payload : Payload :=
    { key := "frozen/" ++ key, value := value, timestamp := nowTs, author := pub,
      isEncrypted := false, space := "frozen" }
  { payload := payload, signature := o.sign (o.canonPayload payload) priv }

/-- The envelope `Railgun.put` constructs for an `all`-space write. -/
def allEnvelope (o : Oracle) (nowTs : Int) (pub priv : String) (key : String)
    (value : MVal) : Envelope :=
  let payload : Payload :=
    { key := "all/" ++ key, value := value, timestamp := nowTs, author := pub,
      isEncrypted := false, space := "all" }
  { payload := payload, signature := o.sign (o.canonPayload payload) priv }

/-- The envelope `Railgun.put` constructs for a user-space write: the
stored value is the ciphertext string and `isEncrypted` is set. -/
def userEnvelope (o : Oracle) (nowTs : Int) (pub priv dk : String) (key : String)
    (value : MVal) : Envelope :=
  let payload : Payload :=
    { key := "user/" ++ pub ++ "/" ++ key,
      value := .mstr (asciiBytes (o.encData value dk)),
      timestamp := nowTs, author := pub, isEncrypted := true, space := "user" }
  { payload := payload, signature := o.sign (o.canonPayload payload) priv }

/-- A concrete oracle for witnesses and counterexamples: identity key
normalization and crypto stubs under which every signature verifies
(the situation for honestly signed envelopes). -/
def idOracle : Oracle :=
  { norm := id, verify := fun _ _ _ => some true, canonPayload := fun _ => "",
    verifyProofM := fun _ _ _ => some true, canonClaim := fun _ _ _ => "",
    sign := fun _ _ => "sig", encData := fun _ _ => "ct", decData := fun _ _ => none }

/-- A concrete logged-in coordinator state over an empty store. -/
def freshState : RgState :=
  { store := ⟨[], [], []⟩, pubKey := some "pk", runtime := some ("priv", "dk") }

/-- An oracle whose data-key decryption recovers the witness value
`7` from its ciphertext. -/
def rtOracle : Oracle := { idOracle with decData := fun _ _ => some (.mint 7) }

/-- An oracle under which no signature verifies. -/
def badSigOracle : Oracle := { idOracle with verify := fun _ _ _ => some false }

/-- Concrete envelopes for witnesses: two writes to the public path
`k` with timestamps 1 and 5. -/
def env1 : Envelope :=
  { payload := { key := "k", value := .mnil, timestamp := 1, author := "a",
                 isEncrypted := false, space := "all" }, signature := "s1" }

def env2 : Envelope :=
  { payload := { key := "k", value := .mbool true, timestamp := 5, author := "b",
                 isEncrypted := false, space := "all" }, signature := "s2" }

/-- A remote envelope whose path lies under `user/x/` but whose space
tag is `all` and whose author is `y`. -/
def spoofEnvelope : Envelope :=
  { payload := { key := "user/x/diary", value := .mnil, timestamp := 1, author := "y",
                 isEncrypted := false, space := "all" }, signature := "s" }

/-- 32-byte public keys in hex: all zeros, and with a trailing 1. -/
def pk0hex : String := "0000000000000000000000000000000000000000000000000000000000000000"

def pk1hex : String := "0000000000000000000000000000000000000000000000000000000000000001"

/-- Concrete username claims sharing `createdAt = 10`. -/
def claimA : UClaim :=
  { username := "carol", pubKey := "pkA", createdAt := 10, revoked := false,
    signature := "sigA" }

def claimB : UClaim :=
  { username := "carol", pubKey := "pkB", createdAt := 10, revoked := false,
    signature := "sigB" }

def claimC : UClaim :=
  { username := "carol", pubKey := "pkC", createdAt := 20, revoked := false,
    signature := "sigC" }

/-- A signature checker that accepts every claim. -/
def allValid : UClaim → Option Bool := fun _ => some true

/-- A concrete 32-byte digest and nodes for witnesses. -/
def wideHash : List Nat := List.replicate 32 1

def nodeW : BNode :=
  { value := some [118, 58, 97],
    children := [(97, List.replicate 32 7), (98, List.replicate 32 9)] }

/-! ## Supporting lemmas -/

lemma mem_wordToBytes_lt {w b : Nat} (hb : b ∈ wordToBytes w) : b < 256 := by
  unfold wordToBytes at hb
  simp only [List.mem_cons, List.not_mem_nil, or_false] at hb
  rcases hb with h | h | h | h <;> subst h <;> exact Nat.mod_lt _ (by norm_num)

lemma mem_sha256_lt {msg : List Nat} {b : Nat} (hb : b ∈ sha256 msg) : b < 256 := by
  unfold sha256 at hb
  simp only [List.mem_flatMap] at hb
  obtain ⟨w, _, hw⟩ := hb
  exact mem_wordToBytes_lt hw

lemma sha256_getD_lt (msg : List Nat) (i : Nat) : (sha256 msg).getD i 0 < 256 := by
  rw [List.getD_eq_getElem?_getD]
  match h : (sha256 msg)[i]? with
  | none => simp
  | some a =>
    have ha : a ∈ sha256 msg := List.getElem?_mem h
    simp only [h, Option.getD_some]
    exact mem_sha256_lt ha

lemma bytes_lor_eq_sum (a b c d : Nat) (hb : b < 256) (hc : c < 256) (hd : d < 256) :
    (((a <<< 24) ||| (b <<< 16)) ||| (c <<< 8)) ||| d
      = a * 16777216 + b * 65536 + c * 256 + d := by
  rw [Nat.shiftLeft_eq, Nat.shiftLeft_eq, Nat.shiftLeft_eq]
  rw [Nat.lor_assoc, Nat.lor_assoc]
  have e1 : (2 : Nat) ^ 8 * c + d = 2 ^ 8 * c ||| d :=
    Nat.mul_add_lt_is_or (by omega) c
  have e2 : (2 : Nat) ^ 16 * b + (2 ^ 8 * c + d) = 2 ^ 16 * b ||| (2 ^ 8 * c ||| d) := by
    rw [← e1]; exact Nat.mul_add_lt_is_or (by omega) b
  have e3 : (2 : Nat) ^ 24 * a + (2 ^ 16 * b + (2 ^ 8 * c + d))
      = 2 ^ 24 * a ||| (2 ^ 16 * b ||| (2 ^ 8 * c ||| d)) := by
    rw [← e2]; exact Nat.mul_add_lt_is_or (by omega) a
  rw [show a * 2 ^ 24 = 2 ^ 24 * a by ring, show b * 2 ^ 16 = 2 ^ 16 * b by ring,
      show c * 2 ^ 8 = 2 ^ 8 * c by ring]
  rw [← e3]
  ring

lemma jsToInt32_of_lt {u : Nat} (h : u < 2147483648) : jsToInt32 u = u := by
  unfold jsToInt32
  have h0 : ((u : Int) + 2147483648).emod 4294967296 = (u : Int) + 2147483648 :=
    Int.emod_eq_of_lt (by omega) (by omega)
  omega

lemma suffixOfHash_nonneg (h : List Nat) (n : Nat)
    (h1 : h.getD 1 0 < 256) (h2 : h.getD 2 0 < 256) (h3 : h.getD 3 0 < 256)
    (hmsb : h.getD 0 0 < 128) :
    suffixOfHash h n = specSuffixOfHash h n := by
  unfold suffixOfHash specSuffixOfHash suffixNum specUnsigned
  rw [bytes_lor_eq_sum _ _ _ _ h1 h2 h3]
  rw [jsToInt32_of_lt (by omega)]
  rw [show ((10 : Int) ^ n) = ((10 ^ n : Nat) : Int) by simp]
  rw [← Int.ofNat_tmod, Int.natAbs_ofNat]


lemma insertChild_cons_of_le {e f : Nat × List Nat} {t : List (Nat × List Nat)}
    (h : e.1 ≤ f.1) : insertChild e (f :: t) = e :: f :: t := by
  simp [insertChild, h]

lemma sortChildren_eq_of_sorted : ∀ {l : List (Nat × List Nat)},
    l.Pairwise (fun a b => a.1 ≤ b.1) → sortChildren l = l
  | [], _ => rfl
  | e :: t, h => by
      have hsorted := sortChildren_eq_of_sorted h.tail
      unfold sortChildren
      rw [show (e :: t).tail = t from rfl] at hsorted
      rw [hsorted]
      match t, h with
      | [], _ => rfl
      | f :: t', h => exact insertChild_cons_of_le (List.rel_of_pairwise_cons h (by simp))

lemma insertChild_perm (e : Nat × List Nat) :
    ∀ (l : List (Nat × List Nat)), (insertChild e l).Perm (e :: l)
  | [] => List.Perm.refl _
  | f :: t => by
      unfold insertChild
      by_cases h : e.1 ≤ f.1
      · simp [h]
      · simp only [h, if_false]
        exact ((insertChild_perm e t).cons f).trans (List.Perm.swap e f t)

lemma sortChildren_perm : ∀ (l : List (Nat × List Nat)), (sortChildren l).Perm l
  | [] => List.Perm.refl _
  | e :: t => (insertChild_perm e (sortChildren t)).trans ((sortChildren_perm t).cons e)

lemma insertChild_sorted (e : Nat × List Nat) :
    ∀ {l : List (Nat × List Nat)}, l.Pairwise (fun a b => a.1 ≤ b.1) →
      (insertChild e l).Pairwise (fun a b => a.1 ≤ b.1)
  | [], _ => by simp [insertChild]
  | f :: t, h => by
      unfold insertChild
      by_cases hef : e.1 ≤ f.1
      · simp only [hef, if_true]
        refine List.Pairwise.cons ?_ h
        intro x hx
        rcases List.mem_cons.mp hx with rfl | hx
        · exact hef
        · exact Nat.le_trans hef (List.rel_of_pairwise_cons h hx)
      · simp only [hef, if_false]
        refine List.Pairwise.cons ?_ (insertChild_sorted e h.tail)
        intro x hx
        have hx' := (insertChild_perm e t).mem_iff.mp hx
        rcases List.mem_cons.mp hx' with rfl | hx'
        · exact Nat.le_of_lt (Nat.lt_of_not_le hef)
        · exact List.rel_of_pairwise_cons h hx'

lemma sortChildren_sorted : ∀ (l : List (Nat × List Nat)),
    (sortChildren l).Pairwise (fun a b => a.1 ≤ b.1)
  | [] => List.Pairwise.nil
  | e :: t => insertChild_sorted e (sortChildren_sorted t)

lemma sorted_perm_eq : ∀ (l₁ l₂ : List (Nat × List Nat)), l₁.Perm l₂ →
    l₁.Pairwise (fun a b => a.1 ≤ b.1) → l₂.Pairwise (fun a b => a.1 ≤ b.1) →
    (l₁.map (fun e => e.1)).Nodup → l₁ = l₂
  | [], [], _, _, _, _ => rfl
  | [], b :: t₂, hp, _, _, _ => absurd hp.symm (by simp)
  | a :: t₁, [], hp, _, _, _ => absurd hp (by simp)
  | a :: t₁, b :: t₂, hp, hs₁, hs₂, hnd => by
      have hab : a = b := by
        by_contra hne
        have ha2 : a ∈ b :: t₂ := hp.mem_iff.mp (by simp)
        have hb1 : b ∈ a :: t₁ := hp.mem_iff.mpr (by simp)
        have ha2' : a ∈ t₂ := by
          rcases List.mem_cons.mp ha2 with h | h
          · exact absurd h hne
          · exact h
        have hb1' : b ∈ t₁ := by
          rcases List.mem_cons.mp hb1 with h | h
          · exact absurd h.symm hne
          · exact h
        have h1 : a.1 ≤ b.1 := List.rel_of_pairwise_cons hs₁ hb1'
        have h2 : b.1 ≤ a.1 := List.rel_of_pairwise_cons hs₂ ha2'
        have hk : a.1 = b.1 := Nat.le_antisymm h1 h2
        -- a.1 appears twice in l₂'s keys: as b's key (head) and at a ∈ t₂
        have hnd₂ : ((b :: t₂).map (fun e => e.1)).Nodup := (hp.map (fun e => e.1)).nodup_iff.mp hnd
        have : b.1 ∈ t₂.map (fun e => e.1) := by
          rw [← hk]; exact List.mem_map_of_mem (fun e => e.1) ha2'
        simp only [List.map_cons, List.nodup_cons] at hnd₂
        exact hnd₂.1 this
      subst hab
      have := sorted_perm_eq t₁ t₂ (hp.cons_inv) hs₁.tail hs₂.tail
        (by simp only [List.map_cons, List.nodup_cons] at hnd; exact hnd.2)
      rw [this]



lemma readChildren_flatMap : ∀ (cs : List (Nat × List Nat)) (tail : List Nat),
    (∀ e ∈ cs, e.2.length = 32) →
    readChildren cs.length (cs.flatMap (fun e => (e.1 % 256) :: e.2) ++ tail)
      = some (cs.map (fun e => (e.1 % 256, e.2)), tail)
  | [], tail, _ => by simp [readChildren]
  | e :: t, tail, hh => by
      have h32 : e.2.length = 32 := hh e (by simp)
      have hrest : ∀ x ∈ t, x.2.length = 32 := fun x hx => hh x (by simp [hx])
      simp only [List.flatMap_cons, List.length_cons, List.cons_append, List.append_assoc]
      unfold readChildren
      have hlen : 32 ≤ (e.2 ++ (t.flatMap (fun e => (e.1 % 256) :: e.2) ++ tail)).length := by
        simp [h32]
      rw [if_neg (by omega)]
      rw [List.take_left' h32, List.drop_left' h32]
      rw [readChildren_flatMap t tail hrest]
      simp

lemma flags_byte (a b : Nat) (ha : a ≤ 1) (hb : b ≤ 127) :
    (a ||| (b <<< 1)) = 2 * b + a := by
  rw [Nat.shiftLeft_eq, Nat.lor_comm]
  rw [show b * 2 ^ 1 = 2 ^ 1 * b by ring]
  rw [← Nat.mul_add_lt_is_or (by omega) b]

lemma and_127_of_le {b : Nat} (hb : b ≤ 127) : b &&& 127 = b := by
  rw [show (127 : Nat) = 2 ^ 7 - 1 by norm_num, Nat.and_pow_two_sub_one_eq_mod]
  omega

lemma and_255_eq_mod (x : Nat) : x &&& 255 = x % 256 := by
  rw [show (255 : Nat) = 2 ^ 8 - 1 by norm_num, Nat.and_pow_two_sub_one_eq_mod]

lemma count_two_bytes (cnt : Nat) (h : cnt < 65536) :
    ((((cnt >>> 8) &&& 255) <<< 8) ||| (cnt &&& 255)) = cnt := by
  rw [and_255_eq_mod, and_255_eq_mod, Nat.shiftRight_eq_div_pow]
  have hdiv : cnt / 2 ^ 8 % 256 = cnt / 256 := by
    have : cnt / 256 < 256 := by omega
    simp [Nat.pow_succ]
    omega
  rw [hdiv, Nat.shiftLeft_eq]
  rw [show cnt / 256 * 2 ^ 8 = 2 ^ 8 * (cnt / 256) by ring]
  rw [← Nat.mul_add_lt_is_or (by omega) (cnt / 256)]
  omega

lemma deserializeNode_cons (flags : Nat) (rest : List Nat) :
    deserializeNode (flags :: rest) =
      (parseCount flags rest).bind fun p =>
      (parseValue flags p.2).bind fun q =>
      (readChildren p.1 q.2).map fun c => BNode.mk q.1 c.1 := rfl

lemma serializeNode_eq (v : Option (List Nat)) (cs : List (Nat × List Nat))
    (hsort : cs.Pairwise (fun a b => a.1 ≤ b.1)) :
    serializeNode ⟨v, cs⟩ =
      (((if v.isSome then 1 else 0) ||| ((if 127 ≤ cs.length then 127 else cs.length) <<< 1)) % 256) ::
        ((if 127 ≤ cs.length then [(cs.length >>> 8) &&& 255, cs.length &&& 255] else []) ++
         ((match v with
          | none => []
          | some vb => ((vb.length >>> 8) &&& 255) :: (vb.length &&& 255) :: vb) ++
         cs.flatMap (fun e => (e.1 % 256) :: e.2))) := by
  simp only [serializeNode, sortChildren_eq_of_sorted hsort, List.append_assoc]

lemma parseCount_direct (c : Nat) (hc : c ≤ 126) (a : Nat) (ha : a ≤ 1) (rest : List Nat) :
    parseCount (2 * c + a) rest = some (c, rest) := by
  unfold parseCount
  have hs : (2 * c + a) >>> 1 = c := by
    rw [Nat.shiftRight_eq_div_pow]; omega
  rw [hs, and_127_of_le (by omega)]
  rw [show (c == 127) = false from by simp; omega]
  simp

lemma parseValue_clear (c : Nat) (input : List Nat) :
    parseValue (2 * c) input = some (none, input) := by
  unfold parseValue
  rw [show ((2 * c) &&& 1) = 0 from by rw [Nat.and_one_is_mod]; omega]
  simp

lemma parseValue_set (c : Nat) (vb tail : List Nat) (hlen : vb.length < 65536) :
    parseValue (2 * c + 1)
        (((vb.length >>> 8) &&& 255) :: (vb.length &&& 255) :: (vb ++ tail))
      = some (some vb, tail) := by
  unfold parseValue
  rw [show ((2 * c + 1) &&& 1) = 1 from by rw [Nat.and_one_is_mod]; omega]
  simp only [ne_eq, one_ne_zero, not_false_iff, if_true]
  rw [count_two_bytes vb.length hlen]
  rw [if_neg (by simp)]
  rw [List.take_left' rfl, List.drop_left' rfl]

lemma deserialize_serialize_mapped (n : BNode)
    (hsort : n.children.Pairwise (fun a b => a.1 ≤ b.1))
    (hdig : ∀ e ∈ n.children, e.2.length = 32)
    (hval : ∀ vb, n.value = some vb → vb.length < 65536)
    (hcnt : n.children.length < 65536) :
    deserializeNode (serializeNode n)
      = some ⟨n.value, n.children.map (fun e => (e.1 % 256, e.2))⟩ := by
  obtain ⟨v, cs⟩ := n
  simp only at hsort hdig hval hcnt
  have hrc := readChildren_flatMap cs [] hdig
  rw [List.append_nil] at hrc
  rw [serializeNode_eq v cs hsort]
  rcases v with _ | vb
  · by_cases hext : 127 ≤ cs.length
    · simp only [Option.isSome_none, Bool.false_eq_true, if_false, if_pos hext,
        List.cons_append, List.nil_append]
      rw [show ((0 ||| (127 <<< 1)) % 256 : Nat) = 254 from by decide]
      rw [deserializeNode_cons]
      rw [show parseCount 254 (((cs.length >>> 8) &&& 255) :: (cs.length &&& 255) ::
            cs.flatMap (fun e => (e.1 % 256) :: e.2))
          = some (cs.length, cs.flatMap (fun e => (e.1 % 256) :: e.2)) from by
        unfold parseCount
        rw [show (((254 : Nat) >>> 1) &&& 127 == 127) = true from by decide]
        simp only [if_true]
        rw [count_two_bytes cs.length hcnt]]
      rw [Option.some_bind]
      rw [show parseValue 254 (cs.flatMap (fun e => (e.1 % 256) :: e.2))
          = some (none, cs.flatMap (fun e => (e.1 % 256) :: e.2)) from
        parseValue_clear 127 _]
      rw [Option.some_bind]
      rw [hrc]
      rfl
    · have h126 : cs.length ≤ 126 := by omega
      simp only [Option.isSome_none, Bool.false_eq_true, if_false, if_neg hext,
        List.nil_append]
      rw [show ((0 ||| (cs.length <<< 1)) : Nat) = 2 * cs.length from by
        rw [flags_byte 0 cs.length (by omega) (by omega)]; ring]
      rw [Nat.mod_eq_of_lt (by omega)]
      rw [deserializeNode_cons]
      rw [show (2 * cs.length) = 2 * cs.length + 0 from by ring]
      rw [parseCount_direct cs.length h126 0 (by omega)]
      rw [Option.some_bind]
      rw [show (2 * cs.length + 0) = 2 * cs.length from by ring]
      rw [parseValue_clear]
      rw [Option.some_bind]
      rw [hrc]
      rfl
  · have hvb : vb.length < 65536 := hval vb rfl
    by_cases hext : 127 ≤ cs.length
    · simp only [Option.isSome_some, if_true, if_pos hext, List.cons_append,
        List.nil_append, List.append_assoc]
      rw [show ((1 ||| (127 <<< 1)) % 256 : Nat) = 255 from by decide]
      rw [deserializeNode_cons]
      rw [show parseCount 255 (((cs.length >>> 8) &&& 255) :: (cs.length &&& 255) ::
            (((vb.length >>> 8) &&& 255) :: (vb.length &&& 255) ::
              (vb ++ cs.flatMap (fun e => (e.1 % 256) :: e.2))))
          = some (cs.length, ((vb.length >>> 8) &&& 255) :: (vb.length &&& 255) ::
              (vb ++ cs.flatMap (fun e => (e.1 % 256) :: e.2))) from by
        unfold parseCount
        rw [show (((255 : Nat) >>> 1) &&& 127 == 127) = true from by decide]
        simp only [if_true]
        rw [count_two_bytes cs.length hcnt]]
      rw [Option.some_bind]
      rw [show (255 : Nat) = 2 * 127 + 1 from by norm_num]
      rw [parseValue_set 127 vb _ hvb]
      rw [Option.some_bind]
      rw [hrc]
      rfl
    · have h126 : cs.length ≤ 126 := by omega
      simp only [Option.isSome_some, if_true, if_neg hext, List.nil_append,
        List.cons_append, List.append_assoc]
      rw [show ((1 ||| (cs.length <<< 1)) : Nat) = 2 * cs.length + 1 from
        flags_byte 1 cs.length (by omega) (by omega)]
      rw [Nat.mod_eq_of_lt (by omega)]
      rw [deserializeNode_cons]
      rw [parseCount_direct cs.length h126 1 (by omega)]
      rw [Option.some_bind]
      rw [parseValue_set cs.length vb _ hvb]
      rw [Option.some_bind]
      rw [hrc]
      rfl

lemma map_mod_id (cs : List (Nat × List Nat)) (h : ∀ e ∈ cs, e.1 < 256) :
    cs.map (fun e => (e.1 % 256, e.2)) = cs := by
  induction cs with
  | nil => rfl
  | cons e t ih =>
      have he : e.1 < 256 := h e (by simp)
      have ht : ∀ x ∈ t, x.1 < 256 := fun x hx => h x (by simp [hx])
      simp only [List.map_cons, Nat.mod_eq_of_lt he, ih ht]

lemma serializeNode_perm (n₁ n₂ : BNode) (hv : n₁.value = n₂.value)
    (hp : n₁.children.Perm n₂.children)
    (hnd : (n₁.children.map (fun e => e.1)).Nodup) :
    serializeNode n₁ = serializeNode n₂ := by
  obtain ⟨v₁, cs₁⟩ := n₁
  obtain ⟨v₂, cs₂⟩ := n₂
  simp only at hv hp hnd
  subst hv
  have hsc : sortChildren cs₁ = sortChildren cs₂ := by
    apply sorted_perm_eq
    · exact (sortChildren_perm cs₁).trans (hp.trans (sortChildren_perm cs₂).symm)
    · exact sortChildren_sorted cs₁
    · exact sortChildren_sorted cs₂
    · exact (((sortChildren_perm cs₁).map (fun e => e.1)).nodup_iff).mpr hnd
  simp only [serializeNode, hsc]

lemma storedAt_cons (a : String × Envelope) (t : Store) (p : String) :
    storedAt (a :: t) p = if a.1 == p then some a.2 else storedAt t p := by
  unfold storedAt
  rw [List.find?_cons]
  rcases Bool.eq_false_or_eq_true (a.1 == p) with h | h <;> simp [h]

lemma storedAt_map_replace (st : Store) (p : String) (e : Envelope)
    (h : (st.find? (fun q => q.1 == p)).isSome) :
    storedAt (st.map (fun q => if q.1 == p then (q.1, e) else q)) p = some e := by
  induction st with
  | nil => simp [List.find?] at h
  | cons a t ih =>
      rcases Bool.eq_false_or_eq_true (a.1 == p) with ha | ha
      · have he : a.1 = p := by simpa using ha
        simp [List.map_cons, he, storedAt_cons]
      · simp only [List.find?_cons, ha] at h
        simp only [List.map_cons, ha, Bool.false_eq_true, if_false, storedAt_cons]
        exact ih h

lemma storedAt_storePut_self (norm : String → String) (st : Store) (k : String)
    (e : Envelope) : storedAt (storePut norm st k e) (norm k) = some e := by
  unfold storePut
  by_cases h : (st.find? (fun q => q.1 == norm k)).isSome
  · rw [if_pos h]
    exact storedAt_map_replace st (norm k) e h
  · rw [if_neg h]
    simp [storedAt_cons]

lemma storedAt_storePut_other (norm : String → String) (st : Store) (k : String)
    (e : Envelope) (p : String) (hne : p ≠ norm k) :
    storedAt (storePut norm st k e) p = storedAt st p := by
  have hkp : ∀ x : String, (x == norm k) = true → (x == p) = false := by
    intro x hx
    have hxe : x = norm k := by simpa using hx
    subst hxe
    simp only [beq_eq_false_iff_ne, ne_eq]
    exact fun hc => hne hc.symm
  unfold storePut
  by_cases h : (st.find? (fun q => q.1 == norm k)).isSome
  · rw [if_pos h]
    clear h
    induction st with
    | nil => rfl
    | cons a t ih =>
        rcases Bool.eq_false_or_eq_true (a.1 == norm k) with hak | hak
        · simp only [List.map_cons, hak, if_true, storedAt_cons, hkp a.1 hak,
            Bool.false_eq_true, if_false]
          exact ih
        · simp only [List.map_cons, hak, Bool.false_eq_true, if_false, storedAt_cons]
          rcases Bool.eq_false_or_eq_true (a.1 == p) with hap | hap
          · simp only [hap, if_true]
          · simp only [hap, Bool.false_eq_true, if_false]
            exact ih
  · rw [if_neg h]
    rw [storedAt_cons]
    have hnp : ((norm k : String) == p) = false := by
      simp only [beq_eq_false_iff_ne, ne_eq]
      exact fun hc => hne hc.symm
    simp [hnp]

lemma mem_storePut (norm : String → String) (st : Store) (k : String) (e : Envelope)
    (q : String × Envelope) (hq : q ∈ storePut norm st k e) : q.2 = e ∨ q ∈ st := by
  unfold storePut at hq
  by_cases h : (st.find? (fun q => q.1 == norm k)).isSome
  · rw [if_pos h] at hq
    obtain ⟨a, ha, rfl⟩ := List.mem_map.mp hq
    rcases Bool.eq_false_or_eq_true (a.1 == norm k) with hak | hak
    · left; simp [hak]
    · right; simpa [hak] using ha
  · rw [if_neg h] at hq
    rcases List.mem_cons.mp hq with rfl | hq
    · left; rfl
    · right; exact hq

lemma mergeStore_fresh (o : Oracle) (st : Store) (env : Envelope)
    (he : storeGet o.norm st env.payload.key = none) :
    mergeStore o st env = (.ok true, storePut o.norm st env.payload.key env) := by
  unfold mergeStore
  simp only [he]

lemma mergeStore_lww (o : Oracle) (st : Store) (env : Envelope) (e₀ : Envelope)
    (he : storeGet o.norm st env.payload.key = some e₀)
    (hc : jsStartsWith env.payload.key "all/claims/username/" = false) :
    mergeStore o st env =
      if e₀.payload.timestamp ≥ env.payload.timestamp then (.ok false, st)
      else (.ok true, storePut o.norm st env.payload.key env) := by
  unfold mergeStore
  simp only [he]
  simp only [hc, Bool.false_eq_true, if_false]

lemma merge_to_mergeStore (o : Oracle) (now : Int) (st : Store) (env : Envelope)
    (hv : o.verify env.signature (o.canonPayload env.payload) env.payload.author = some true)
    (hs : env.payload.space ≠ "frozen")
    (hu : env.payload.space = "user" →
      (jsStartsWith env.payload.key ("user/" ++ env.payload.author ++ "/")) = true) :
    merge o now st env = mergeStore o st env := by
  unfold merge
  simp only [hv]
  by_cases hsp : env.payload.space = "user"
  · have hb : (env.payload.space == "user") = true := by simp [hsp]
    simp only [hb, if_true, hu hsp, Bool.not_true, Bool.false_eq_true, if_false]
  · have hb : (env.payload.space == "user") = false := by simp [hsp]
    have hf : (env.payload.space == "frozen") = false := by simp [hs]
    simp only [hb, hf, Bool.false_eq_true, if_false]

lemma merge_rejected_signature (o : Oracle) (now : Int) (st : Store) (env : Envelope)
    (hv : o.verify env.signature (o.canonPayload env.payload) env.payload.author = some false ∨
          o.verify env.signature (o.canonPayload env.payload) env.payload.author = none) :
    merge o now st env = (.ok false, st) := by
  unfold merge
  rcases hv with hv | hv <;> simp only [hv]



lemma mergeList_cons (o : Oracle) (now : Int) (st : Store) (e : Envelope)
    (es : List Envelope) :
    mergeList o now st (e :: es) = mergeList o now ((merge o now st e).2) es := rfl

lemma mergeList_occupied (o : Oracle) (now : Int) (p : String) :
    ∀ (es : List Envelope), (∀ e ∈ es, Admissible o p e) →
    ∀ (st : Store) (w : Envelope), storedAt st p = some w →
      ∃ w', storedAt (mergeList o now st es) p = some w' ∧
        (w' = w ∨ w' ∈ es) ∧ w.payload.timestamp ≤ w'.payload.timestamp ∧
        ∀ e ∈ es, e.payload.timestamp ≤ w'.payload.timestamp
  | [], _, st, w, hw => ⟨w, by simpa [mergeList] using hw, Or.inl rfl, le_refl _, by simp⟩
  | e :: es, hadm, st, w, hw => by
      obtain ⟨hnorm, hnc, hver, hnf, huser⟩ := hadm e (by simp)
      have hget : storeGet o.norm st e.payload.key = some w := by
        unfold storeGet; rw [hnorm]; exact hw
      have hm : merge o now st e = mergeStore o st e :=
        merge_to_mergeStore o now st e hver hnf huser
      have hlww := mergeStore_lww o st e w hget hnc
      rw [mergeList_cons]
      by_cases hts : w.payload.timestamp ≥ e.payload.timestamp
      · have hst : (merge o now st e).2 = st := by
          rw [hm, hlww, if_pos hts]
        rw [hst]
        obtain ⟨w', h1, h2, h3, h4⟩ :=
          mergeList_occupied o now p es (fun x hx => hadm x (by simp [hx])) st w hw
        refine ⟨w', h1, ?_, h3, ?_⟩
        · rcases h2 with h2 | h2
          · exact Or.inl h2
          · exact Or.inr (List.mem_cons_of_mem e h2)
        · intro x hx
          rcases List.mem_cons.mp hx with rfl | hx
          · exact le_trans (le_trans hts h3) (le_refl _)
          · exact h4 x hx
      · have hst : (merge o now st e).2 = storePut o.norm st e.payload.key e := by
          rw [hm, hlww, if_neg hts]
        have hstored : storedAt ((merge o now st e).2) p = some e := by
          rw [hst, ← hnorm]
          exact storedAt_storePut_self o.norm st e.payload.key e
        obtain ⟨w', h1, h2, h3, h4⟩ :=
          mergeList_occupied o now p es (fun x hx => hadm x (by simp [hx]))
            ((merge o now st e).2) e hstored
        refine ⟨w', h1, ?_, ?_, ?_⟩
        · rcases h2 with h2 | h2
          · exact Or.inr (h2 ▸ List.mem_cons_self e es)
          · exact Or.inr (List.mem_cons_of_mem e h2)
        · exact le_trans (le_of_lt (lt_of_not_ge hts)) h3
        · intro x hx
          rcases List.mem_cons.mp hx with rfl | hx
          · exact h3
          · exact h4 x hx

lemma mergeList_from_empty (o : Oracle) (now : Int) (p : String) (e : Envelope)
    (es : List Envelope) (hadm : ∀ x ∈ e :: es, Admissible o p x)
    (st : Store) (hempty : storedAt st p = none) :
    ∃ w', storedAt (mergeList o now st (e :: es)) p = some w' ∧ w' ∈ e :: es ∧
      ∀ x ∈ e :: es, x.payload.timestamp ≤ w'.payload.timestamp := by
  obtain ⟨hnorm, hnc, hver, hnf, huser⟩ := hadm e (by simp)
  have hget : storeGet o.norm st e.payload.key = none := by
    unfold storeGet; rw [hnorm]; exact hempty
  have h1 : merge o now st e = (.ok true, storePut o.norm st e.payload.key e) := by
    rw [merge_to_mergeStore o now st e hver hnf huser, mergeStore_fresh o st e hget]
  have hstored : storedAt ((merge o now st e).2) p = some e := by
    rw [h1, ← hnorm]
    exact storedAt_storePut_self o.norm st e.payload.key e
  obtain ⟨w', hw1, _, hw3, hw4⟩ :=
    mergeList_occupied o now p es (fun x hx => hadm x (by simp [hx]))
      ((merge o now st e).2) e hstored
  refine ⟨w', by rw [mergeList_cons]; exact hw1, ?_, ?_⟩
  · rcases ‹w' = e ∨ w' ∈ es› with h | h
    · exact h ▸ List.mem_cons_self e es
    · exact List.mem_cons_of_mem e h
  · intro x hx
    rcases List.mem_cons.mp hx with rfl | hx
    · exact hw3
    · exact hw4 x hx

lemma merge_snd_cases (o : Oracle) (now : Int) (st : Store) (env : Envelope) :
    (merge o now st env).2 = st ∨
    ((merge o now st env).2 = (mergeStore o st env).2 ∧
      (env.payload.space = "user" →
        (jsStartsWith env.payload.key ("user/" ++ env.payload.author ++ "/")) = true)) := by
  unfold merge
  cases hov : o.verify env.signature (o.canonPayload env.payload) env.payload.author with
  | none => left; simp only [hov]
  | some b =>
      cases b with
      | false => left; simp only [hov]
      | true =>
          simp only [hov]
          by_cases hsp : (env.payload.space == "user") = true
          · simp only [hsp, if_true]
            by_cases hpre : (jsStartsWith env.payload.key
                ("user/" ++ env.payload.author ++ "/")) = true
            · rw [if_neg (by simp [hpre])]
              exact Or.inr ⟨rfl, fun _ => hpre⟩
            · rw [if_pos (by simp only [Bool.not_eq_true] at hpre; simp [hpre])]
              exact Or.inl rfl
          · simp only [Bool.not_eq_true] at hsp
            simp only [hsp, Bool.false_eq_true, if_false]
            have hnu : env.payload.space ≠ "user" := by
              intro h
              rw [h] at hsp
              simp at hsp
            by_cases hfz : (env.payload.space == "frozen") = true
            · simp only [hfz, if_true]
              set ms := mergeStore o st env with hms
              repeat' split
              all_goals first
                | exact Or.inl rfl
                | exact Or.inr ⟨by first | rfl | trivial, fun h => absurd h hnu⟩
            · simp only [Bool.not_eq_true] at hfz
              simp only [hfz, Bool.false_eq_true, if_false]
              exact Or.inr ⟨by first | rfl | trivial, fun h => absurd h hnu⟩



lemma mergeStore_userInv (o : Oracle) (st : Store) (env : Envelope)
    (hinv : UserInv st)
    (henv : env.payload.space = "user" →
      (jsStartsWith env.payload.key ("user/" ++ env.payload.author ++ "/")) = true) :
    UserInv ((mergeStore o st env).2) := by
  have hput : UserInv (storePut o.norm st env.payload.key env) := by
    intro q hq hsp
    rcases mem_storePut o.norm st env.payload.key env q hq with he | hm
    · rw [he] at hsp ⊢
      exact henv hsp
    · exact hinv q hm hsp
  unfold mergeStore
  cases hsg : storeGet o.norm st env.payload.key with
  | none =>
      simp only [hsg]
      exact hput
  | some existing =>
      simp only [hsg]
      by_cases hcl : jsStartsWith env.payload.key "all/claims/username/" = true
      · simp only [hcl, if_true]
        cases h1 : spreadList existing.payload.value with
        | none => simp only [h1]; exact hinv
        | some oldClaims =>
            cases h2 : spreadList env.payload.value with
            | none => simp only [h1, h2]; exact hinv
            | some newClaims =>
                simp only [h1, h2]
                cases h3 : dedupeBySig (oldClaims ++ newClaims) with
                | none => simp only [h3]; exact hinv
                | some unique =>
                    simp only [h3]
                    intro q hq hsp
                    rcases mem_storePut o.norm st env.payload.key _ q hq with he | hm
                    · rw [he] at hsp ⊢
                      exact henv hsp
                    · exact hinv q hm hsp
      · simp only [Bool.not_eq_true] at hcl
        simp only [hcl, Bool.false_eq_true, if_false]
        by_cases hts : existing.payload.timestamp ≥ env.payload.timestamp
        · simp only [hts, if_true]
          exact hinv
        · simp only [hts, if_false]
          exact hput

lemma merge_userInv (o : Oracle) (now : Int) (st : Store) (env : Envelope)
    (hinv : UserInv st) : UserInv ((merge o now st env).2) := by
  rcases merge_snd_cases o now st env with h | ⟨h, henv⟩
  · rw [h]; exact hinv
  · rw [h]; exact mergeStore_userInv o st env hinv henv

lemma foldl_pickEarliest_spec : ∀ (t : List UClaim) (h : UClaim),
    (t.foldl pickEarliest h) ∈ h :: t ∧
    (∀ c ∈ h :: t, (t.foldl pickEarliest h).createdAt ≤ c.createdAt) ∧
    ((h :: t).find? (fun c => decide (c.createdAt ≤ (t.foldl pickEarliest h).createdAt))
      = some (t.foldl pickEarliest h))
  | [], h => by
      refine ⟨by simp, ?_, ?_⟩
      · intro c hc
        rcases List.mem_cons.mp hc with rfl | hc
        · exact le_refl _
        · simp at hc
      · simp [List.find?]
  | c :: t, h => by
      rw [List.foldl_cons]
      by_cases hcx : c.createdAt < h.createdAt
      · have hpick : pickEarliest h c = c := by simp [pickEarliest, hcx]
        rw [hpick]
        obtain ⟨ih1, ih2, ih3⟩ := foldl_pickEarliest_spec t c
        have hrc : (t.foldl pickEarliest c).createdAt ≤ c.createdAt := ih2 c (by simp)
        refine ⟨?_, ?_, ?_⟩
        · rcases List.mem_cons.mp ih1 with he | ht
        
          · rw [he]; simp
          · simp [ht]
        · intro x hx
          rcases List.mem_cons.mp hx with rfl | hx
          · exact le_trans hrc (le_of_lt hcx)
          · exact ih2 x hx
        · rw [List.find?_cons]
          have hnh : (decide (h.createdAt ≤ (t.foldl pickEarliest c).createdAt)) = false := by
            simp only [decide_eq_false_iff_not, not_le]
            exact lt_of_le_of_lt hrc hcx
          rw [hnh]
          exact ih3
      · have hpick : pickEarliest h c = h := by simp [pickEarliest, hcx]
        rw [hpick]
        obtain ⟨ih1, ih2, ih3⟩ := foldl_pickEarliest_spec t h
        have hhc : h.createdAt ≤ c.createdAt := le_of_not_lt hcx
        have hrh : (t.foldl pickEarliest h).createdAt ≤ h.createdAt := ih2 h (by simp)
        refine ⟨?_, ?_, ?_⟩
        · rcases List.mem_cons.mp ih1 with he | ht
          · rw [he]; simp
          · simp [ht]
        · intro x hx
          rcases List.mem_cons.mp hx with rfl | hx
          · exact ih2 x (by simp)
          · rcases List.mem_cons.mp hx with rfl | hx
            · exact le_trans hrh hhc
            · exact ih2 x (by simp [hx])
        · by_cases hhr : h.createdAt ≤ (t.foldl pickEarliest h).createdAt
          · have hdh : (decide (h.createdAt ≤ (t.foldl pickEarliest h).createdAt)) = true :=
              decide_eq_true hhr
            have hrh' : (t.foldl pickEarliest h) = h := by
              rw [List.find?_cons, hdh] at ih3
              exact (Option.some.inj ih3).symm
            rw [List.find?_cons, hdh, hrh']
          · have hlt : (t.foldl pickEarliest h).createdAt < h.createdAt := lt_of_not_ge hhr
            have hd1 : (decide (h.createdAt ≤ (t.foldl pickEarliest h).createdAt)) = false := by
              simp only [decide_eq_false_iff_not, not_le]
              exact hlt
            have hd2 : (decide (c.createdAt ≤ (t.foldl pickEarliest h).createdAt)) = false := by
              simp only [decide_eq_false_iff_not, not_le]
              exact lt_of_lt_of_le hlt hhc
            rw [List.find?_cons, hd1, List.find?_cons, hd2]
            rw [List.find?_cons, hd1] at ih3
            exact ih3

lemma alistFind_cons {κ β : Type} [BEq κ] (e : κ × β) (m : List (κ × β)) (k : κ) :
    alistFind (e :: m) k = if e.1 == k then some e.2 else alistFind m k := by
  unfold alistFind
  rw [List.find?_cons]
  rcases Bool.eq_false_or_eq_true (e.1 == k) with h | h <;> simp [h]

lemma alistFind_append_right {κ β : Type} [BEq κ] [LawfulBEq κ] (m : List (κ × β))
    (k : κ) (v : β) (h : ∀ e ∈ m, (e.1 == k) = false) :
    alistFind (m ++ [(k, v)]) k = some v := by
  induction m with
  | nil => simp [alistFind, List.find?_cons]
  | cons a t ih =>
      have ha := h a (by simp)
      rw [List.cons_append, alistFind_cons, ha]
      simp only [Bool.false_eq_true, if_false]
      exact ih (fun e he => h e (by simp [he]))

lemma alistFind_alistSet_self {κ β : Type} [BEq κ] [LawfulBEq κ]
    (m : List (κ × β)) (k : κ) (v : β) :
    alistFind (alistSet m k v) k = some v := by
  unfold alistSet
  by_cases h : (m.find? (fun e => e.1 == k)).isSome
  · rw [if_pos h]
    induction m with
    | nil => simp [List.find?] at h
    | cons a t ih =>
        rcases Bool.eq_false_or_eq_true (a.1 == k) with ha | ha
        · simp [List.map_cons, ha, alistFind_cons]
        · simp only [List.find?_cons, ha] at h
          simp only [List.map_cons, ha, Bool.false_eq_true, if_false, alistFind_cons]
          exact ih h
  · rw [if_neg h]
    have hnone : m.find? (fun e => e.1 == k) = none := by
      cases hf : m.find? (fun e => e.1 == k) with
      | none => rfl
      | some x => rw [hf] at h; simp at h
    refine alistFind_append_right m k v ?_
    intro e he
    have := List.find?_eq_none.mp hnone e he
    simpa using this

lemma alistFind_addToCache (cache : List (List Nat × MVal)) (key : List Nat) (v : MVal) :
    alistFind (addToCache cache key v) key = some v := by
  unfold addToCache
  have hcall : ∀ e ∈ cache.filter (fun e => !(e.1 == key)), (e.1 == key) = false := by
    intro e he
    have := List.of_mem_filter he
    simpa using this
  by_cases hlen : 500 < ((cache.filter (fun e => !(e.1 == key))) ++ [(key, v)]).length
  · rw [if_pos hlen]
    cases hcc : cache.filter (fun e => !(e.1 == key)) with
    | nil =>
        rw [hcc] at hlen
        simp at hlen
    | cons a t =>
        show alistFind (List.drop 1 (a :: (t ++ [(key, v)]))) key = some v
        show alistFind (t ++ [(key, v)]) key = some v
        refine alistFind_append_right t key v ?_
        intro e he
        exact hcall e (by rw [hcc]; exact List.mem_cons_of_mem a he)
  · rw [if_neg hlen]
    exact alistFind_append_right _ key v hcall

lemma vstorePut_eq (storage : List (List Nat × List Nat)) (cache : List (List Nat × MVal))
    (value : MVal) (bytes : List Nat)
    (hnil : isNilV value = false) (henc : msgEncode value = some bytes) :
    vstorePut storage cache value =
      some (some (valueRefKey bytes),
        (if (alistFind storage (valueRefKey bytes)).isSome then storage
         else alistSet storage (valueRefKey bytes) bytes),
        addToCache cache (valueRefKey bytes) value) := by
  unfold vstorePut
  rw [hnil]
  simp only [Bool.false_eq_true, if_false]
  rw [henc]

lemma triePutM_eq (norm : String → String) (ts : TrieState) (k : String) (v : MVal)
    (bytes : List Nat) (hnil : isNilV v = false) (henc : msgEncode v = some bytes) :
    triePutM norm ts k v = some
      { paths := alistSet ts.paths (norm k) (some (valueRefKey bytes)),
        storage := (if (alistFind ts.storage (valueRefKey bytes)).isSome then ts.storage
          else alistSet ts.storage (valueRefKey bytes) bytes),
        cache := addToCache ts.cache (valueRefKey bytes) v } := by
  unfold triePutM
  rw [vstorePut_eq ts.storage ts.cache v bytes hnil henc]

lemma trieGetM_mk (norm : String → String) (P : List (String × Option (List Nat)))
    (S : List (List Nat × List Nat)) (C : List (List Nat × MVal)) (k : String) :
    trieGetM norm ⟨P, S, C⟩ k =
      match alistFind P (norm k) with
      | none => none
      | some ref => vstoreGetVal S C ref := rfl

lemma vstoreGetVal_some (storage : List (List Nat × List Nat))
    (cache : List (List Nat × MVal)) (kk : List Nat) :
    vstoreGetVal storage cache (some kk) =
      match alistFind cache kk with
      | some v => some v
      | none =>
          match alistFind storage kk with
          | none => none
          | some encoded => msgDecode encoded := rfl

/-- Read-after-write through the trie and value store: a `trie.get` at
the path just written hits the cache and returns the ORIGINAL value. -/
lemma trieGetM_after_put (norm : String → String) (ts : TrieState) (k : String)
    (v : MVal) (bytes : List Nat) (hnil : isNilV v = false)
    (henc : msgEncode v = some bytes) (ts1 : TrieState)
    (hput : triePutM norm ts k v = some ts1) :
    trieGetM norm ts1 k = some v := by
  rw [triePutM_eq norm ts k v bytes hnil henc] at hput
  injection hput with h
  subst h
  rw [trieGetM_mk, alistFind_alistSet_self]
  show vstoreGetVal _ _ (some (valueRefKey bytes)) = some v
  rw [vstoreGetVal_some, alistFind_addToCache]

lemma mGet_envelopeToM_payload (e : Envelope) :
    mGet (envelopeToM e) "payload" = some (payloadToM e.payload) := rfl

lemma mGet_payloadToM_value (p : Payload) :
    mGet (payloadToM p) "value" = some p.value := rfl

lemma mGet_payloadToM_isEncrypted (p : Payload) :
    mGet (payloadToM p) "isEncrypted" = some (.mbool p.isEncrypted) := rfl

lemma mvTruthy_envelopeToM (e : Envelope) : mvTruthy (envelopeToM e) = true := rfl

lemma rgGet_frozen (o : Oracle) (st : RgState) (key : String) (envE : Envelope)
    (htrie : trieGetM o.norm st.store ("frozen/" ++ key) = some (envelopeToM envE))
    (hnotenc : envE.payload.isEncrypted = false) :
    rgGet o st key "frozen" = .ok (some envE.payload.value) := by
  unfold rgGet
  rw [show (("frozen" : String) == "all") = false from rfl,
      show (("frozen" : String) == "frozen") = true from rfl]
  simp only [Bool.false_eq_true, if_false, if_true, pure_bind]
  rw [htrie]
  simp only [mvTruthy_envelopeToM, Bool.not_true, Bool.false_eq_true, if_false,
    mGet_envelopeToM_payload, mGet_payloadToM_isEncrypted, mGet_payloadToM_value, hnotenc]
  rfl



lemma rgPut_frozen_occupied (o : Oracle) (nowTs : Int) (st : RgState) (key : String)
    (value : MVal) (vol : Bool) (priv dk pub : String)
    (hrt : st.runtime = some (priv, dk)) (hpk : st.pubKey = some pub)
    (hocc : mTruthy (trieGetM o.norm st.store ("frozen/" ++ key)) = true) :
    rgPut o nowTs st key value "frozen" vol = .error .immutable := by
  unfold rgPut
  rw [hrt, hpk]
  rw [show (("frozen" : String) == "all") = false from rfl,
      show (("frozen" : String) == "frozen") = true from rfl]
  simp only [Bool.false_eq_true, if_false, if_true, hocc, pure_bind]
  rfl

lemma rgPut_frozen_fresh (o : Oracle) (nowTs : Int) (st : RgState) (key : String)
    (value : MVal) (priv dk pub : String) (ts1 : TrieState)
    (hrt : st.runtime = some (priv, dk)) (hpk : st.pubKey = some pub)
    (hunocc : mTruthy (trieGetM o.norm st.store ("frozen/" ++ key)) = false)
    (hput : triePutM o.norm st.store ("frozen/" ++ key)
        (envelopeToM (frozenEnvelope o nowTs pub priv key value)) = some ts1) :
    rgPut o nowTs st key value "frozen" false = .ok { st with store := ts1 } := by
  unfold rgPut
  rw [hrt, hpk]
  rw [show (("frozen" : String) == "all") = false from rfl,
      show (("frozen" : String) == "frozen") = true from rfl]
  simp only [Bool.false_eq_true, if_false, if_true, hunocc, pure_bind]
  have hput' := hput
  unfold frozenEnvelope at hput'
  rw [hput']
  rfl

lemma rgPut_all_ok (o : Oracle) (nowTs : Int) (st : RgState) (key : String)
    (value : MVal) (priv dk pub : String) (ts1 : TrieState)
    (hrt : st.runtime = some (priv, dk)) (hpk : st.pubKey = some pub)
    (hput : triePutM o.norm st.store ("all/" ++ key)
        (envelopeToM (allEnvelope o nowTs pub priv key value)) = some ts1) :
    rgPut o nowTs st key value "all" false = .ok { st with store := ts1 } := by
  unfold rgPut
  rw [hrt, hpk]
  rw [show (("all" : String) == "all") = true from rfl]
  simp only [if_true, pure_bind]
  have hput' := hput
  unfold allEnvelope at hput'
  rw [hput']
  rfl

lemma rgPut_user_ok (o : Oracle) (nowTs : Int) (st : RgState) (key : String)
    (value : MVal) (priv dk pub : String) (ts1 : TrieState)
    (hrt : st.runtime = some (priv, dk)) (hpk : st.pubKey = some pub)
    (hput : triePutM o.norm st.store ("user/" ++ pub ++ "/" ++ key)
        (envelopeToM (userEnvelope o nowTs pub priv dk key value)) = some ts1) :
    rgPut o nowTs st key value "user" false = .ok { st with store := ts1 } := by
  unfold rgPut
  rw [hrt, hpk]
  rw [show (("user" : String) == "all") = false from rfl,
      show (("user" : String) == "frozen") = false from rfl,
      show (("user" : String) == "user") = true from rfl]
  simp only [Bool.false_eq_true, if_false, if_true, pure_bind]
  have hput' := hput
  unfold userEnvelope at hput'
  rw [hput']
  rfl

lemma rgGet_all (o : Oracle) (st : RgState) (key : String) (envE : Envelope)
    (htrie : trieGetM o.norm st.store ("all/" ++ key) = some (envelopeToM envE))
    (hnotenc : envE.payload.isEncrypted = false) :
    rgGet o st key "all" = .ok (some envE.payload.value) := by
  unfold rgGet
  rw [show (("all" : String) == "all") = true from rfl]
  simp only [if_true, pure_bind]
  rw [htrie]
  simp only [mvTruthy_envelopeToM, Bool.not_true, Bool.false_eq_true, if_false,
    mGet_envelopeToM_payload, mGet_payloadToM_isEncrypted, mGet_payloadToM_value, hnotenc]
  rfl

lemma rgGet_user_dec (o : Oracle) (st : RgState) (key : String) (envE : Envelope)
    (priv dk pub : String) (clear : MVal)
    (hrt : st.runtime = some (priv, dk)) (hpk : st.pubKey = some pub)
    (htrie : trieGetM o.norm st.store ("user/" ++ pub ++ "/" ++ key)
      = some (envelopeToM envE))
    (hisenc : envE.payload.isEncrypted = true)
    (hdec : o.decData envE.payload.value dk = some clear) :
    rgGet o st key "user" = .ok (some clear) := by
  unfold rgGet
  rw [show (("user" : String) == "all") = false from rfl,
      show (("user" : String) == "frozen") = false from rfl,
      show (("user" : String) == "user") = true from rfl, hpk]
  simp only [Bool.false_eq_true, if_false, if_true, pure_bind]
  rw [htrie]
  simp only [mvTruthy_envelopeToM, Bool.not_true, Bool.false_eq_true, if_false,
    mGet_envelopeToM_payload, mGet_payloadToM_isEncrypted, mGet_payloadToM_value, hisenc]
  rw [hrt]
  simp only [hdec]
  rfl


/-! ## Claim theorems -/

/-- C1: for a `merge` whose envelope reaches conflict resolution at an
already-occupied, non-username-claims path, the new envelope replaces
the stored one exactly when its timestamp is strictly greater, and an
equal or smaller timestamp leaves the store unchanged with `merge`
returning `false`; consequently a set of admissible envelopes merged
into an unoccupied path leaves stored an envelope of maximal
timestamp. -/
theorem merge_lww :
    (∀ (o : Oracle) (now : Int) (st : Store) (env e₀ : Envelope),
      storeGet o.norm st env.payload.key = some e₀ →
      jsStartsWith env.payload.key "all/claims/username/" = false →
      o.verify env.signature (o.canonPayload env.payload) env.payload.author = some true →
      env.payload.space ≠ "frozen" →
      (env.payload.space = "user" →
        (jsStartsWith env.payload.key ("user/" ++ env.payload.author ++ "/")) = true) →
      (e₀.payload.timestamp < env.payload.timestamp →
        merge o now st env = (.ok true, storePut o.norm st env.payload.key env)) ∧
      (env.payload.timestamp ≤ e₀.payload.timestamp →
        merge o now st env = (.ok false, st)))
  ∧ (∀ (o : Oracle) (now : Int) (p : String) (e : Envelope) (es : List Envelope)
      (st : Store), (∀ x ∈ e :: es, Admissible o p x) → storedAt st p = none →
      ∃ w, storedAt (mergeList o now st (e :: es)) p = some w ∧ w ∈ e :: es ∧
        ∀ x ∈ e :: es, x.payload.timestamp ≤ w.payload.timestamp) := by
  constructor
  · intro o now st env e₀ hget hnc hver hnf huser
    have hm : merge o now st env = mergeStore o st env :=
      merge_to_mergeStore o now st env hver hnf huser
    have hlww := mergeStore_lww o st env e₀ hget hnc
    constructor
    · intro hts
      rw [hm, hlww, if_neg (by omega)]
    · intro hts
      rw [hm, hlww, if_pos (by omega)]
  · intro o now p e es st hadm hempty
    exact mergeList_from_empty o now p e es hadm st hempty

/-- Witness for C1 at concrete inputs: the later write (timestamp 5)
replaces the earlier (timestamp 1), the earlier write is refused over
the later, and merging both into an empty store leaves the one with the
larger timestamp. -/
theorem merge_lww_witness :
    merge idOracle 0 [("k", env1)] env2
        = (.ok true, storePut idOracle.norm [("k", env1)] env2.payload.key env2) ∧
    merge idOracle 0 [("k", env2)] env1 = (.ok false, [("k", env2)]) ∧
    ∃ w, storedAt (mergeList idOracle 0 [] [env1, env2]) "k" = some w ∧
      w ∈ [env1, env2] ∧
      ∀ x ∈ [env1, env2], x.payload.timestamp ≤ w.payload.timestamp := by
  refine ⟨?_, ?_, ?_⟩
  · exact (merge_lww.1 idOracle 0 [("k", env1)] env2 env1 rfl (by decide) rfl
      (by decide) (fun h => absurd h (by decide))).1 (by decide)
  · exact (merge_lww.1 idOracle 0 [("k", env2)] env1 env2 rfl (by decide) rfl
      (by decide) (fun h => absurd h (by decide))).2 (by decide)
  · refine merge_lww.2 idOracle 0 "k" env1 [env2] [] ?_ rfl
    intro x hx
    rcases List.mem_cons.mp hx with rfl | hx
    · exact ⟨rfl, by decide, rfl, by decide, fun h => absurd h (by decide)⟩
    · rcases List.mem_cons.mp hx with rfl | hx
      · exact ⟨rfl, by decide, rfl, by decide, fun h => absurd h (by decide)⟩
      · simp at hx

/-- C3: an envelope whose signature fails verification (or whose
verification throws) is rejected by `merge`: the call returns `false`
rather than raising, the store is untouched at every path, and the
envelope is present afterwards only where it already was before. -/
theorem merge_invalid_signature :
    ∀ (o : Oracle) (now : Int) (st : Store) (env : Envelope),
      (o.verify env.signature (o.canonPayload env.payload) env.payload.author = some false ∨
       o.verify env.signature (o.canonPayload env.payload) env.payload.author = none) →
      merge o now st env = (.ok false, st) ∧
      (∀ p, storedAt ((merge o now st env).2) p = storedAt st p) ∧
      (∀ p, storedAt st p ≠ some env → storedAt ((merge o now st env).2) p ≠ some env) := by
  intro o now st env hv
  have h := merge_rejected_signature o now st env hv
  refine ⟨h, ?_, ?_⟩
  · intro p; rw [h]
  · intro p hne; rw [h]; exact hne

/-- Witness for C3: a forged envelope is refused and an empty store
stays empty. -/
theorem merge_invalid_signature_witness :
    merge badSigOracle 0 [] env1 = (.ok false, []) ∧
    storedAt ((merge badSigOracle 0 [] env1).2) "k" = storedAt ([] : Store) "k" := by
  have h := merge_invalid_signature badSigOracle 0 [] env1 (Or.inl rfl)
  exact ⟨h.1, h.2.1 "k"⟩

/-- C4 counterexample: an envelope at path `user/x/diary` authored by
`y ≠ x` is admitted by `merge` when its space tag is `all`, so after a
merge a `user/<X>/...` path can hold an envelope authored by `Y ≠ X`;
the claim's consequence fails as stated. -/
theorem user_path_spoof_counterexample :
    merge idOracle 0 [] spoofEnvelope = (.ok true, [("user/x/diary", spoofEnvelope)]) ∧
    storedAt [("user/x/diary", spoofEnvelope)] "user/x/diary" = some spoofEnvelope ∧
    spoofEnvelope.payload.author = "y" ∧ ("y" : String) ≠ "x" := by
  refine ⟨rfl, rfl, rfl, by decide⟩

/-- C4 (amended): a user-space envelope whose key does not start with
`user/<author>/` is always rejected by `merge` without touching the
store; consequently merging preserves the invariant that every stored
envelope carrying the `user` space tag names its author in its path.
(An envelope under a `user/...` path with a different space tag is not
covered by the source's check — see the counterexample.) -/
theorem user_space_admission :
    (∀ (o : Oracle) (now : Int) (st : Store) (env : Envelope),
      env.payload.space = "user" →
      (jsStartsWith env.payload.key ("user/" ++ env.payload.author ++ "/")) = false →
      merge o now st env = (.ok false, st))
  ∧ (∀ (o : Oracle) (now : Int) (st : Store) (env : Envelope),
      UserInv st → UserInv ((merge o now st env).2)) := by
  constructor
  · intro o now st env hsp hpre
    unfold merge
    cases hov : o.verify env.signature (o.canonPayload env.payload) env.payload.author with
    | none => simp only [hov]
    | some b =>
        cases b with
        | false => simp only [hov]
        | true =>
            simp only [hov]
            rw [if_pos (by simp [hsp]), if_pos (by simp [hpre])]
  · intro o now st env hinv
    exact merge_userInv o now st env hinv

/-- Witness for C4: a user-space envelope whose path names another user
is refused, and the invariant holds across a merge on a store
satisfying it. -/
theorem user_space_admission_witness :
    merge idOracle 0 []
        { payload := { key := "user/x/diary", value := .mnil, timestamp := 1,
                       author := "y", isEncrypted := false, space := "user" },
          signature := "s" } = (.ok false, []) ∧
    UserInv ((merge idOracle 0 [] env1).2) := by
  constructor
  · exact user_space_admission.1 idOracle 0 []
      { payload := { key := "user/x/diary", value := .mnil, timestamp := 1,
                     author := "y", isEncrypted := false, space := "user" },
        signature := "s" } rfl (by decide)
  · refine user_space_admission.2 idOracle 0 [] env1 ?_
    intro q hq
    simp at hq

/-- C2: a frozen put into an occupied path fails with `Immutable` and
produces no new state; a first frozen put into an unoccupied path
succeeds, the subsequent get returns the written value (the value
store's cache serves back the original envelope), a second frozen put
to the same path then fails with `Immutable`, and get on the unchanged
state still returns the first value. -/
theorem frozen_immutability :
    (∀ (o : Oracle) (nowTs : Int) (st : RgState) (key : String) (value : MVal)
      (vol : Bool) (priv dk pub : String),
      st.runtime = some (priv, dk) → st.pubKey = some pub →
      mTruthy (trieGetM o.norm st.store ("frozen/" ++ key)) = true →
      rgPut o nowTs st key value "frozen" vol = .error .immutable)
  ∧ (∀ (o : Oracle) (nowTs nowTs2 : Int) (st : RgState) (key : String)
      (value value2 : MVal) (priv dk pub : String) (bytes : List Nat),
      st.runtime = some (priv, dk) → st.pubKey = some pub →
      mTruthy (trieGetM o.norm st.store ("frozen/" ++ key)) = false →
      msgEncode (envelopeToM (frozenEnvelope o nowTs pub priv key value)) = some bytes →
      ∃ st1, rgPut o nowTs st key value "frozen" false = .ok st1 ∧
        rgGet o st1 key "frozen" = .ok (some value) ∧
        rgPut o nowTs2 st1 key value2 "frozen" false = .error .immutable ∧
        rgGet o st1 key "frozen" = .ok (some value)) := by
  constructor
  · intro o nowTs st key value vol priv dk pub hrt hpk hocc
    exact rgPut_frozen_occupied o nowTs st key value vol priv dk pub hrt hpk hocc
  · intro o nowTs nowTs2 st key value value2 priv dk pub bytes hrt hpk hunocc henc
    have hnil : isNilV (envelopeToM (frozenEnvelope o nowTs pub priv key value))
        = false := rfl
    have hts1 := triePutM_eq o.norm st.store ("frozen/" ++ key)
      (envelopeToM (frozenEnvelope o nowTs pub priv key value)) bytes hnil henc
    have hput := rgPut_frozen_fresh o nowTs st key value priv dk pub _ hrt hpk hunocc hts1
    have htrie' := trieGetM_after_put o.norm st.store ("frozen/" ++ key)
      (envelopeToM (frozenEnvelope o nowTs pub priv key value)) bytes hnil henc _ hts1
    set st1 : RgState := { st with store :=
      { paths := alistSet st.store.paths (o.norm ("frozen/" ++ key))
          (some (valueRefKey bytes)),
        storage := (if (alistFind st.store.storage (valueRefKey bytes)).isSome
          then st.store.storage else alistSet st.store.storage (valueRefKey bytes) bytes),
        cache := addToCache st.store.cache (valueRefKey bytes)
          (envelopeToM (frozenEnvelope o nowTs pub priv key value)) } } with hst1
    have htrie : trieGetM o.norm st1.store ("frozen/" ++ key)
        = some (envelopeToM (frozenEnvelope o nowTs pub priv key value)) := htrie'
    have hget := rgGet_frozen o st1 key (frozenEnvelope o nowTs pub priv key value)
      htrie rfl
    refine ⟨st1, hput, hget, ?_, hget⟩
    refine rgPut_frozen_occupied o nowTs2 st1 key value2 false priv dk pub ?_ ?_ ?_
    · rw [hst1]; exact hrt
    · rw [hst1]; exact hpk
    · rw [htrie]
      rfl

/-- Witness for C2 at concrete inputs: storing the string `"block0"`
under the frozen key `genesis` succeeds and reads back; a second put of
`"block1"` is refused with `Immutable` while `get` still returns
`"block0"`. -/
theorem frozen_immutability_witness :
    ∃ st1, rgPut idOracle 1000 freshState "genesis" (.mstr (asciiBytes "block0"))
        "frozen" false = .ok st1 ∧
      rgGet idOracle st1 "genesis" "frozen" = .ok (some (.mstr (asciiBytes "block0"))) ∧
      rgPut idOracle 2000 st1 "genesis" (.mstr (asciiBytes "block1")) "frozen" false
        = .error .immutable ∧
      rgGet idOracle st1 "genesis" "frozen" = .ok (some (.mstr (asciiBytes "block0"))) := by
  exact frozen_immutability.2 idOracle 1000 2000 freshState "genesis"
    (.mstr (asciiBytes "block0")) (.mstr (asciiBytes "block1")) "priv" "dk" "pk"
    ((msgEncode (envelopeToM (frozenEnvelope idOracle 1000 "pk" "priv" "genesis"
        (.mstr (asciiBytes "block0"))))).getD [])
    rfl rfl rfl rfl

/-- C5 counterexample: for the 32-byte public key `00…01`, the first
hash byte is `0xec ≥ 0x80`, the source's signed interpretation with
`Math.abs` yields suffix `"4339"`, while the claimed unsigned
interpretation yields `"2957"`. -/
theorem suffix_counterexample :
    computeSuffix pk1hex 4 = some "4339" ∧ specSuffix pk1hex 4 = some "2957" ∧
    computeSuffix pk1hex 4 ≠ specSuffix pk1hex 4 := by
  refine ⟨by decide, by decide, by decide⟩

/-- C5 (amended): the deterministic suffix equals the claimed value —
first 4 hash bytes as a big-endian unsigned 32-bit integer, modulo
`10^n`, zero-padded — whenever the first hash byte is below `0x80`
(i.e. the 32-bit value is nonnegative).  When the top bit is set the
source instead renders the absolute value of the signed remainder,
which can disagree with the unsigned rendering (see the
counterexample), though not for every such hash. -/
theorem suffix_unsigned_agrees (s : String) (n : Nat) (bytes : List Nat)
    (hhex : fromHexAscii (asciiBytes s) = some bytes)
    (hmsb : (sha256 bytes).getD 0 0 < 128) :
    computeSuffix s n = specSuffix s n := by
  unfold computeSuffix specSuffix
  rw [hhex]
  exact congrArg some (suffixOfHash_nonneg (sha256 bytes) n
    (sha256_getD_lt bytes 1) (sha256_getD_lt bytes 2) (sha256_getD_lt bytes 3) hmsb)

/-- Witness for C5: the all-zero public key hashes to a first byte of
`0x66 < 0x80`, and both renderings give `"3181"`. -/
theorem suffix_unsigned_agrees_witness :
    computeSuffix pk0hex 4 = specSuffix pk0hex 4 :=
  suffix_unsigned_agrees pk0hex 4 (List.replicate 32 0) (by decide) (by decide)

/-- C6 counterexample: with two validly signed, unrevoked claims
sharing the smallest `createdAt`, `resolveWinner` returns whichever
comes first in the input order — there is no signature tie-break, and
the result depends on the order of the set. -/
theorem resolveWinner_order_counterexample :
    resolveWinner allValid [claimA, claimB] = some claimA ∧
    resolveWinner allValid [claimB, claimA] = some claimB ∧
    claimA ≠ claimB := by
  refine ⟨by decide, by decide, by decide⟩

/-- C6 (amended): `resolveWinner` returns `null` exactly when no claim
is both unrevoked and validly signed; otherwise it returns the first
claim in input order among the unrevoked, validly signed claims that
attains the smallest `createdAt` (so on `createdAt` ties the result
depends on input order, not on the signature bytes). -/
theorem resolveWinner_first_earliest (sigOk : UClaim → Option Bool)
    (claims : List UClaim) :
    (resolveWinner sigOk claims = none ↔
      claims.filter (fun c => (sigOk c == some true) && !c.revoked) = []) ∧
    (∀ w, resolveWinner sigOk claims = some w →
      w ∈ claims.filter (fun c => (sigOk c == some true) && !c.revoked) ∧
      (∀ c ∈ claims.filter (fun c => (sigOk c == some true) && !c.revoked),
        w.createdAt ≤ c.createdAt) ∧
      (claims.filter (fun c => (sigOk c == some true) && !c.revoked)).find?
          (fun c => decide (c.createdAt ≤ w.createdAt)) = some w) := by
  have hff : (claims.filter (fun c => !c.revoked)).filter (fun c => sigOk c == some true)
      = claims.filter (fun c => (sigOk c == some true) && !c.revoked) :=
    List.filter_filter _ _
  unfold resolveWinner
  by_cases hemp : claims.isEmpty
  · have : claims = [] := List.isEmpty_iff.mp hemp
    subst this
    simp
  · simp only [hemp, Bool.false_eq_true, if_false]
    by_cases hact : (claims.filter (fun c => !c.revoked)).isEmpty
    · have hact' : claims.filter (fun c => !c.revoked) = [] := List.isEmpty_iff.mp hact
      simp only [hact, if_true]
      constructor
      · rw [← hff, hact']
        simp
      · intro w hw
        simp at hw
    · simp only [hact, Bool.false_eq_true, if_false]
      rw [← hff]
      cases hval : (claims.filter (fun c => !c.revoked)).filter
          (fun c => sigOk c == some true) with
      | nil => simp
      | cons h t =>
          simp only [Option.some.injEq]
          constructor
          · constructor
            · intro hc
              exact absurd hc (by simp)
            · intro hc
              exact absurd hc (by simp)
          · intro w hw
            obtain ⟨m1, m2, m3⟩ := foldl_pickEarliest_spec t h
            rw [hw] at m1 m2 m3
            exact ⟨m1, m2, m3⟩

/-- Witness for C6: with claims at `createdAt` 10 and 20, the earlier
one wins regardless of position, and an all-revoked set resolves to
`null`. -/
theorem resolveWinner_first_earliest_witness :
    resolveWinner allValid [claimC, claimA] = some claimA ∧
    claimA ∈ [claimC, claimA].filter (fun c => (allValid c == some true) && !c.revoked) ∧
    (∀ c ∈ [claimC, claimA].filter (fun c => (allValid c == some true) && !c.revoked),
      claimA.createdAt ≤ c.createdAt) := by
  have h := (resolveWinner_first_earliest allValid [claimC, claimA]).2 claimA (by decide)
  exact ⟨by decide, h.1, h.2.1⟩

/-- C7: the codec does NOT round-trip every value in its domain: the
16-bit signed path encodes `-129` as `0xd1 0xff 0x7f`, but the decoder
reads the two payload bytes as an unsigned big-endian integer (no sign
extension), so `decode(encode(-129))` yields `65407`, not `-129`. -/
theorem codec_int16_counterexample :
    (msgEncode (.mint (-129))).bind msgDecode = some (.mint 65407) ∧
    MVal.mint 65407 ≠ MVal.mint (-129) ∧
    msgEncode (.mint (-129)) = some [0xd1, 0xff, 0x7f] := by
  refine ⟨rfl, ?_, rfl⟩
  simp only [ne_eq, MVal.mint.injEq]
  decide

/-- C8 counterexample: a node whose child key has code unit `20013`
(a CJK character) does not round-trip: serialization stores only the
low byte, so deserialization reconstructs key `45` instead. -/
theorem node_roundtrip_counterexample :
    deserializeNode (serializeNode ⟨none, [(20013, wideHash)]⟩)
      = some ⟨none, [(45, wideHash)]⟩ ∧
    (⟨none, [(20013, wideHash)]⟩ : BNode) ≠ ⟨none, [(45, wideHash)]⟩ := by
  refine ⟨by decide, by decide⟩

/-- C8 (amended): for nodes whose child-key code units are all below
256 (with 32-byte digests, sorted unique keys, and in-range lengths),
`deserialize(serialize(n)) = n`, and the digest is insertion-order
independent: any permutation of the child list with the same value
yields the same digest, because children are sorted ascending before
hashing. -/
theorem node_roundtrip_byte_keys (n m : BNode)
    (hsort : n.children.Pairwise (fun a b => a.1 ≤ b.1))
    (hkeys : ∀ e ∈ n.children, e.1 < 256)
    (hdig : ∀ e ∈ n.children, e.2.length = 32)
    (hval : ∀ vb, n.value = some vb → vb.length < 65536)
    (hcnt : n.children.length < 65536)
    (hv : n.value = m.value) (hp : n.children.Perm m.children)
    (hnd : (n.children.map (fun e => e.1)).Nodup) :
    deserializeNode (serializeNode n) = some n ∧ nodeHash n = nodeHash m := by
  constructor
  · rw [deserialize_serialize_mapped n hsort hdig hval hcnt, map_mod_id _ hkeys]
  · unfold nodeHash
    rw [serializeNode_perm n m hv hp hnd]

/-- Witness for C8: a node with sorted byte keys `97 < 98` round-trips
exactly, and its digest equals that of the same node with the children
listed in the opposite order. -/
theorem node_roundtrip_byte_keys_witness :
    deserializeNode (serializeNode nodeW) = some nodeW ∧
    nodeHash nodeW
      = nodeHash ⟨nodeW.value, [(98, List.replicate 32 9), (97, List.replicate 32 7)]⟩ :=
  node_roundtrip_byte_keys nodeW
    ⟨nodeW.value, [(98, List.replicate 32 9), (97, List.replicate 32 7)]⟩
    (by decide) (by decide) (by decide)
    (fun vb h => by injection h with h; subst h; decide)
    (by decide) rfl (by decide) (by decide)

/-- C9: on a logged-in instance, `put(k, v, {space})` followed
immediately by `get(k, {space})` on the same instance returns `v` for
each space in `all`, `frozen` (path unoccupied) and `user`: the trie
leaf's value reference hits the `ValueStore` cache, which returns the
original envelope object, so the caller reads back exactly the written
value — decrypted with the caller's data key in the user space. -/
theorem rg_put_get_roundtrip (o : Oracle) (nowTs : Int) (st : RgState)
    (key : String) (value : MVal) (priv dk pub : String)
    (hrt : st.runtime = some (priv, dk)) (hpk : st.pubKey = some pub) :
    (∀ bytes, msgEncode (envelopeToM (allEnvelope o nowTs pub priv key value))
        = some bytes →
      ∃ st1, rgPut o nowTs st key value "all" false = .ok st1 ∧
        rgGet o st1 key "all" = .ok (some value)) ∧
    (∀ bytes, mTruthy (trieGetM o.norm st.store ("frozen/" ++ key)) = false →
      msgEncode (envelopeToM (frozenEnvelope o nowTs pub priv key value))
        = some bytes →
      ∃ st1, rgPut o nowTs st key value "frozen" false = .ok st1 ∧
        rgGet o st1 key "frozen" = .ok (some value)) ∧
    (∀ bytes, msgEncode (envelopeToM (userEnvelope o nowTs pub priv dk key value))
        = some bytes →
      o.decData (.mstr (asciiBytes (o.encData value dk))) dk = some value →
      ∃ st1, rgPut o nowTs st key value "user" false = .ok st1 ∧
        rgGet o st1 key "user" = .ok (some value)) := by
  refine ⟨?_, ?_, ?_⟩
  · intro bytes henc
    have hnil : isNilV (envelopeToM (allEnvelope o nowTs pub priv key value))
        = false := rfl
    have hts1 := triePutM_eq o.norm st.store ("all/" ++ key)
      (envelopeToM (allEnvelope o nowTs pub priv key value)) bytes hnil henc
    have htrie := trieGetM_after_put o.norm st.store ("all/" ++ key)
      (envelopeToM (allEnvelope o nowTs pub priv key value)) bytes hnil henc _ hts1
    refine ⟨_, rgPut_all_ok o nowTs st key value priv dk pub _ hrt hpk hts1, ?_⟩
    exact rgGet_all o _ key (allEnvelope o nowTs pub priv key value) htrie rfl
  · intro bytes hunocc henc
    have hnil : isNilV (envelopeToM (frozenEnvelope o nowTs pub priv key value))
        = false := rfl
    have hts1 := triePutM_eq o.norm st.store ("frozen/" ++ key)
      (envelopeToM (frozenEnvelope o nowTs pub priv key value)) bytes hnil henc
    have htrie := trieGetM_after_put o.norm st.store ("frozen/" ++ key)
      (envelopeToM (frozenEnvelope o nowTs pub priv key value)) bytes hnil henc _ hts1
    refine ⟨_, rgPut_frozen_fresh o nowTs st key value priv dk pub _ hrt hpk hunocc hts1,
      ?_⟩
    exact rgGet_frozen o _ key (frozenEnvelope o nowTs pub priv key value) htrie rfl
  · intro bytes henc hdec
    have hnil : isNilV (envelopeToM (userEnvelope o nowTs pub priv dk key value))
        = false := rfl
    have hts1 := triePutM_eq o.norm st.store ("user/" ++ pub ++ "/" ++ key)
      (envelopeToM (userEnvelope o nowTs pub priv dk key value)) bytes hnil henc
    have htrie := trieGetM_after_put o.norm st.store ("user/" ++ pub ++ "/" ++ key)
      (envelopeToM (userEnvelope o nowTs pub priv dk key value)) bytes hnil henc _ hts1
    refine ⟨_, rgPut_user_ok o nowTs st key value priv dk pub _ hrt hpk hts1, ?_⟩
    exact rgGet_user_dec o _ key (userEnvelope o nowTs pub priv dk key value)
      priv dk pub value hrt hpk htrie rfl hdec

/-- Witness for C9: in each of the three spaces, writing the integer
`7` to the key `k` on a fresh logged-in instance and reading it back
immediately returns `7`. -/
theorem rg_put_get_roundtrip_witness :
    (∃ st1, rgPut rtOracle 1000 freshState "k" (.mint 7) "all" false = .ok st1 ∧
      rgGet rtOracle st1 "k" "all" = .ok (some (.mint 7))) ∧
    (∃ st1, rgPut rtOracle 1000 freshState "k" (.mint 7) "frozen" false = .ok st1 ∧
      rgGet rtOracle st1 "k" "frozen" = .ok (some (.mint 7))) ∧
    (∃ st1, rgPut rtOracle 1000 freshState "k" (.mint 7) "user" false = .ok st1 ∧
      rgGet rtOracle st1 "k" "user" = .ok (some (.mint 7))) := by
  obtain ⟨h1, h2, h3⟩ := rg_put_get_roundtrip rtOracle 1000 freshState "k" (.mint 7)
    "priv" "dk" "pk" rfl rfl
  refine ⟨h1 ((msgEncode (envelopeToM (allEnvelope rtOracle 1000 "pk" "priv" "k"
      (.mint 7)))).getD []) rfl,
    h2 ((msgEncode (envelopeToM (frozenEnvelope rtOracle 1000 "pk" "priv" "k"
      (.mint 7)))).getD []) rfl rfl,
    h3 ((msgEncode (envelopeToM (userEnvelope rtOracle 1000 "pk" "priv" "dk" "k"
      (.mint 7)))).getD []) rfl rfl⟩

/-- C10: `serialize` writes each child key as its low byte
(`charCodeAt(0) % 256`) and `deserialize` rebuilds the key from that
single byte, so the round-trip maps every child key to its residue
mod 256; for any key with code unit ≥ 256 this residue is a strictly
different character — the node is silently altered, never rejected. -/
theorem serialize_truncates_wide_keys (n : BNode)
    (hsort : n.children.Pairwise (fun a b => a.1 ≤ b.1))
    (hdig : ∀ e ∈ n.children, e.2.length = 32)
    (hval : ∀ vb, n.value = some vb → vb.length < 65536)
    (hcnt : n.children.length < 65536) :
    deserializeNode (serializeNode n)
      = some ⟨n.value, n.children.map (fun e => (e.1 % 256, e.2))⟩ ∧
    ∀ e ∈ n.children, 256 ≤ e.1 → e.1 % 256 ≠ e.1 := by
  refine ⟨deserialize_serialize_mapped n hsort hdig hval hcnt, ?_⟩
  intro e _ hge
  have := Nat.mod_lt e.1 (show 0 < 256 by norm_num)
  omega

/-- Witness for C10: the node with the single child key `20013` comes
back with key `45 = 20013 % 256`, a different character. -/
theorem serialize_truncates_wide_keys_witness :
    deserializeNode (serializeNode ⟨none, [(20013, wideHash)]⟩)
      = some ⟨none, ([(20013, wideHash)] : List (Nat × List Nat)).map
          (fun e => (e.1 % 256, e.2))⟩ ∧
    ∀ e ∈ ([(20013, wideHash)] : List (Nat × List Nat)), 256 ≤ e.1 → e.1 % 256 ≠ e.1 :=
  serialize_truncates_wide_keys ⟨none, [(20013, wideHash)]⟩
    (by decide) (by decide) (fun vb h => nomatch h) (by decide)

end Railgun
